import Mathlib

/-!
Shallow embedding of the live-status coordination layer of openclaw:
the active-run registry (`src/agents/pi-embedded-runner/runs.ts`), the
text-variant thread-status manager (`src/slack/threading-tool-context.ts`),
the phase/counter-variant thread-status manager
(`src/slack/monitor/thread-status.ts`) and the typing controller.

JavaScript `Map`s become association lists (`Map.set` replaces in place or
appends, `Map.delete` removes the unique entry, iteration follows insertion
order).  Object reference identity becomes a numeric identity token carried
by the modelled object.  Asynchronous push calls are modelled two-phase:
an output event marks the moment the injected function is invoked, and a
separate scheduler label marks its completion, so arbitrary interleavings
of timer callbacks and caller calls are expressible as label traces.
-/

namespace OpenClaw

/-- Association-list lookup (first entry wins), modelling `Map.get`. -/
def lookupA [DecidableEq α] (k : α) : List (α × β) → Option β
  | [] => none
  | (k', v) :: rest => if k' = k then some v else lookupA k rest

/-- Association-list update, modelling `Map.set`: replaces the first entry
with the given key in place, otherwise appends. -/
def setA [DecidableEq α] (k : α) (v : β) : List (α × β) → List (α × β)
  | [] => [(k, v)]
  | (k', v') :: rest => if k' = k then (k, v) :: rest else (k', v') :: setA k v rest

/-- Association-list removal, modelling `Map.delete`: removes the first
entry with the given key. -/
def eraseA [DecidableEq α] (k : α) : List (α × β) → List (α × β)
  | [] => []
  | (k', v') :: rest => if k' = k then rest else (k', v') :: eraseA k rest

/-- Remove the first entry whose value is `v`, modelling the
`for … if (id === sessionId) { delete; break; }` loop over a `Map`. -/
def removeFirstVal [DecidableEq β] (v : β) : List (α × β) → List (α × β)
  | [] => []
  | (k', v') :: rest => if v' = v then rest else (k', v') :: removeFirstVal v rest

/-! ## Active-run registry (`src/agents/pi-embedded-runner/runs.ts`) -/

/-- `EmbeddedPiQueueHandle`: capability record for one live run.  `hid` is
the JS object identity (distinct objects carry distinct tokens); the
`streaming` / `compacting` fields are the values its `isStreaming()` /
`isCompacting()` callbacks return. -/
structure EmbeddedPiQueueHandle where
  hid : Nat
  streaming : Bool
  compacting : Bool
  deriving DecidableEq

/-- State of the module-level registry in `runs.ts`: `ACTIVE_EMBEDDED_RUNS`,
`SESSION_KEY_TO_SESSION_ID` and `EMBEDDED_RUN_WAITERS` (waiters are
identified by their `wid`; a waiter's `resolve` callback and its
`setTimeout` handle are both keyed by that token).  `pendingTimers` lists
the not-yet-fired, not-yet-cleared timeout timers as (sessionId, wid)
pairs; `nextWid` supplies fresh waiter identities. -/
structure RunsState where
  activeRuns : List (String × EmbeddedPiQueueHandle)
  sessionKeyToSessionId : List (String × String)
  waiters : List (String × List Nat)
  pendingTimers : List (String × Nat)
  nextWid : Nat
  deriving DecidableEq

/-- Observable effects of registry operations: capability invocations and
promise resolutions. -/
inductive RunsOut where
  | queueMessage (hid : Nat) (text : String)
  | abortCall (hid : Nat)
  | resolve (wid : Nat) (ended : Bool)
  | resolveImmediate (ended : Bool)
  deriving DecidableEq

/-- `queueEmbeddedPiMessage`: queue a message into the active run, with the
three rejection guards of the source (no handle, not streaming,
compacting). -/
def queueEmbeddedPiMessage (st : RunsState) (sessionId text : String) :
    Bool × RunsState × List RunsOut :=
  match lookupA sessionId st.activeRuns with
  | none => (false, st, [])
  | some handle =>
    if !handle.streaming then (false, st, [])
    else if handle.compacting then (false, st, [])
    else (true, st, [.queueMessage handle.hid text])

/-- `abortEmbeddedPiRun`: invoke the handle's abort capability if present. -/
def abortEmbeddedPiRun (st : RunsState) (sessionId : String) :
    Bool × List RunsOut :=
  match lookupA sessionId st.activeRuns with
  | none => (false, [])
  | some handle => (true, [.abortCall handle.hid])

/-- `setActiveEmbeddedRun`: register (or replace) the handle for a
sessionId and update the sessionKey alias when given. -/
def setActiveEmbeddedRun (st : RunsState) (sessionId : String)
    (handle : EmbeddedPiQueueHandle) (sessionKey : Option String) : RunsState :=
  { st with
    activeRuns := setA sessionId handle st.activeRuns,
    sessionKeyToSessionId :=
      match sessionKey with
      | some k => setA k sessionId st.sessionKeyToSessionId
      | none => st.sessionKeyToSessionId }

/-- `notifyEmbeddedRunEnded`: wake every waiter registered for the
sessionId: the waiter set is removed, each waiter's timeout timer is
cleared, and each resolves `true`. -/
def notifyEmbeddedRunEnded (st : RunsState) (sessionId : String) :
    RunsState × List RunsOut :=
  match lookupA sessionId st.waiters with
  | none => (st, [])
  | some ws =>
    if ws.isEmpty then (st, [])
    else
      ({ st with
          waiters := eraseA sessionId st.waiters,
          pendingTimers := st.pendingTimers.filter (fun p => !ws.contains p.2) },
       ws.map (fun w => .resolve w true))

/-- `clearActiveEmbeddedRun`: remove the entry only when the stored handle
is identity-equal (`===`) to the one passed, then drop the first alias
mapping to the sessionId and wake the waiters; otherwise do nothing. -/
def clearActiveEmbeddedRun (st : RunsState) (sessionId : String)
    (handle : EmbeddedPiQueueHandle) : RunsState × List RunsOut :=
  match lookupA sessionId st.activeRuns with
  | some stored =>
    if stored.hid = handle.hid then
      let st1 := { st with
        activeRuns := eraseA sessionId st.activeRuns,
        sessionKeyToSessionId := removeFirstVal sessionId st.sessionKeyToSessionId }
      notifyEmbeddedRunEnded st1 sessionId
    else (st, [])
  | none => (st, [])

/-- `waitForEmbeddedPiRunEnd`: resolve `true` immediately when the
sessionId is falsy or no run is registered; otherwise register a fresh
waiter together with its timeout timer.  The synchronous re-check inside
the Promise executor is translated literally (its branch is dead because
the map cannot change between the two checks). -/
def waitForEmbeddedPiRunEnd (st : RunsState) (sessionId : String)
    (_timeoutMs : Nat) : RunsState × List RunsOut :=
  if sessionId = "" ∨ (lookupA sessionId st.activeRuns).isNone then
    (st, [.resolveImmediate true])
  else
    let wid := st.nextWid
    let ws := (lookupA sessionId st.waiters).getD []
    let ws1 := ws ++ [wid]
    let st1 := { st with
      waiters := setA sessionId ws1 st.waiters,
      pendingTimers := st.pendingTimers ++ [(sessionId, wid)],
      nextWid := wid + 1 }
    if (lookupA sessionId st1.activeRuns).isNone then
      let ws2 := ws1.erase wid
      ({ st1 with
          waiters := if ws2.isEmpty then eraseA sessionId st1.waiters
                     else setA sessionId ws2 st1.waiters,
          pendingTimers := st1.pendingTimers.filter (fun p => p.2 ≠ wid) },
       [.resolveImmediate true])
    else (st1, [])

/-- Firing of the `setTimeout` timer registered by `waitForEmbeddedPiRunEnd`:
the callback removes the waiter from its set (dropping the set when it
empties) and resolves `false`.  The timer must still be pending — a cleared
timer never fires. -/
def embeddedRunTimeoutFire (st : RunsState) (wid : Nat) :
    RunsState × List RunsOut :=
  match st.pendingTimers.find? (fun p => p.2 = wid) with
  | none => (st, [])
  | some (sid, _) =>
    let st0 := { st with pendingTimers := st.pendingTimers.filter (fun p => p.2 ≠ wid) }
    let ws := (lookupA sid st0.waiters).getD []
    let ws2 := ws.erase wid
    ({ st0 with
        waiters := if ws2.isEmpty then eraseA sid st0.waiters
                   else setA sid ws2 st0.waiters },
     [.resolve wid false])

/-- Entry points of `runs.ts` plus the timer callback, as scheduler labels. -/
inductive RunsLabel where
  | register (sessionId : String) (handle : EmbeddedPiQueueHandle) (sessionKey : Option String)
  | clear (sessionId : String) (handle : EmbeddedPiQueueHandle)
  | queue (sessionId text : String)
  | abortRun (sessionId : String)
  | wait (sessionId : String) (timeoutMs : Nat)
  | timeoutFire (wid : Nat)
  deriving DecidableEq

/-- One step of the registry under an arbitrary interleaving of caller
calls and timer callbacks. -/
def runsStep (st : RunsState) : RunsLabel → RunsState × List RunsOut
  | .register sid h k => (setActiveEmbeddedRun st sid h k, [])
  | .clear sid h => clearActiveEmbeddedRun st sid h
  | .queue sid t =>
    let r := queueEmbeddedPiMessage st sid t
    (r.2.1, r.2.2)
  | .abortRun sid => (st, (abortEmbeddedPiRun st sid).2)
  | .wait sid t => waitForEmbeddedPiRunEnd st sid t
  | .timeoutFire wid => embeddedRunTimeoutFire st wid

/-- Run a trace of registry labels, collecting the emitted outputs. -/
def runsRun (st : RunsState) : List RunsLabel → RunsState × List RunsOut
  | [] => (st, [])
  | l :: ls =>
    let r1 := runsStep st l
    let r2 := runsRun r1.1 ls
    (r2.1, r1.2 ++ r2.2)

/-- The registry at process start: all three maps empty. -/
def runsInit : RunsState :=
  { activeRuns := [], sessionKeyToSessionId := [], waiters := [],
    pendingTimers := [], nextWid := 0 }

/-! ## Text-variant `ThreadStatusManager` (`src/slack/threading-tool-context.ts`) -/

/-- The per-handle closure state of `acquire`: the `released` guard flag
and whether a `shouldGrace` callback was supplied. -/
structure MgrHandle where
  released : Bool
  hasSG : Bool
  deriving DecidableEq

/-- The readonly constructor parameters of the text-variant manager.
The injected `push` and `onError` functions are opaque; they are
represented by identity tokens. -/
structure TextCfg where
  pushIntervalMs : Nat
  graceMs : Nat
  graceText : String
  pushFnId : Nat
  onErrorId : Option Nat
  deriving DecidableEq

/-- Mutable state of one text-variant `ThreadStatusManager` plus its
surroundings: `inRegistry` tracks whether the module-level `managers` map
still holds this key, `handles` tracks every handle ever returned by
`acquire` (keyed by an identity token), and `pendingClear` counts the
`pushOnce` clear calls currently in flight, each of which runs
`stopAndDestroy` when it settles. -/
structure TextState where
  cfg : TextCfg
  currentText : String
  activeHandles : Int
  pushTimer : Bool
  graceTimer : Bool
  pushing : Bool
  pendingClear : Nat
  inRegistry : Bool
  handles : List (Nat × MgrHandle)
  nextHid : Nat
  deriving DecidableEq

/-- Observable effect of the text-variant manager: the moment the injected
`push` function is invoked with a status string. -/
inductive TOut where
  | push (text : String)
  deriving DecidableEq

/-- Mark the first handle entry with the given identity as released. -/
def setReleased (hid : Nat) : List (Nat × MgrHandle) → List (Nat × MgrHandle)
  | [] => []
  | (h', v) :: rest =>
    if h' = hid then (h', { v with released := true }) :: rest
    else (h', v) :: setReleased hid rest

/-- `pushTick`: the gated push — skipped entirely while a push is already
in flight, otherwise sets the `pushing` flag and invokes `push` with the
current text. -/
def textPushTick (s : TextState) : TextState × List TOut :=
  if s.pushing then (s, [])
  else ({ s with pushing := true }, [.push s.currentText])

/-- `destroy`: cancel the grace timer, stop the push loop and delete the
manager from the module-level registry. -/
def textDestroy (s : TextState) : TextState :=
  { s with graceTimer := false, pushTimer := false, inRegistry := false }

/-- `acquire`: increment `activeHandles`, cancel any pending grace timer,
and hand out a fresh handle closure. -/
def textAcquire (s : TextState) (hasSG : Bool) : TextState :=
  { s with
    activeHandles := s.activeHandles + 1,
    graceTimer := false,
    handles := s.handles ++ [(s.nextHid, { released := false, hasSG := hasSG })],
    nextHid := s.nextHid + 1 }

/-- `releaseHandle`: decrement (floored at 0), and at zero either destroy
immediately (loop never started), start the ungated `pushOnce("")` clear
(`shouldGrace()` returned `false`), or enter the grace window. -/
def textReleaseHandle (s : TextState) (graceResult : Option Bool) :
    TextState × List TOut :=
  let s1 := { s with activeHandles := max 0 (s.activeHandles - 1) }
  if 0 < s1.activeHandles then (s1, [])
  else if !s1.pushTimer then (textDestroy s1, [])
  else if graceResult = some false then
    ({ s1 with currentText := "", pendingClear := s1.pendingClear + 1 }, [.push ""])
  else
    ({ s1 with currentText := s1.cfg.graceText, graceTimer := true }, [])

/-- Caller calls and scheduler events of the text-variant manager.
`tickEnd` is the settling of the in-flight gated push, `clearEnd` the
settling of one in-flight `pushOnce` clear (whose `finally` runs
`stopAndDestroy`), `graceFire` the grace `setTimeout` callback, and
`release` carries the value `shouldGrace()` returns at that call (used
only when the handle was acquired with one). -/
inductive TextLabel where
  | acquire (hasSG : Bool)
  | setStatus (hid : Nat) (text : String)
  | release (hid : Nat) (sgv : Bool)
  | tick
  | tickEnd
  | graceFire
  | clearEnd
  deriving DecidableEq

/-- One step of the text-variant manager.  Guards on absent handles and
absent timers make the step total: a label whose timer or handle does not
exist is a no-op, matching the impossibility of those callbacks firing. -/
def textStep (s : TextState) : TextLabel → TextState × List TOut
  | .acquire hasSG => (textAcquire s hasSG, [])
  | .setStatus hid text =>
    match lookupA hid s.handles with
    | none => (s, [])
    | some h =>
      if h.released then (s, [])
      else
        let s1 := { s with currentText := text }
        if text ≠ "" ∧ !s1.pushTimer then
          let r := textPushTick s1
          ({ r.1 with pushTimer := true }, r.2)
        else (s1, [])
  | .release hid sgv =>
    match lookupA hid s.handles with
    | none => (s, [])
    | some h =>
      if h.released then (s, [])
      else
        textReleaseHandle { s with handles := setReleased hid s.handles }
          (if h.hasSG then some sgv else none)
  | .tick => if s.pushTimer then textPushTick s else (s, [])
  | .tickEnd => if s.pushing then ({ s with pushing := false }, []) else (s, [])
  | .graceFire =>
    if s.graceTimer then
      ({ s with graceTimer := false, currentText := "",
                pendingClear := s.pendingClear + 1 }, [.push ""])
    else (s, [])
  | .clearEnd =>
    if 0 < s.pendingClear then
      (textDestroy { s with pendingClear := s.pendingClear - 1 }, [])
    else (s, [])

/-- Run a trace of text-manager labels, collecting outputs. -/
def textRun (s : TextState) : List TextLabel → TextState × List TOut
  | [] => (s, [])
  | l :: ls =>
    let r1 := textStep s l
    let r2 := textRun r1.1 ls
    (r2.1, r1.2 ++ r2.2)

/-- A freshly constructed text-variant manager, as built on the miss path
of `acquireThreadStatus` (before its `acquire` call). -/
def textInit (cfg : TextCfg) : TextState :=
  { cfg := cfg, currentText := "", activeHandles := 0, pushTimer := false,
    graceTimer := false, pushing := false, pendingClear := 0,
    inRegistry := true, handles := [], nextHid := 0 }

/-- Number of calls to the injected `push` function currently in flight:
the gated tick push plus every un-gated `pushOnce` clear push. -/
def textInflight (s : TextState) : Nat :=
  (if s.pushing then 1 else 0) + s.pendingClear

/-- `acquireThreadStatus` for the text variant: reuse the manager stored
under the key, or construct one from the supplied parameters; either way
return the registry and the identity of the handle `acquire` created. -/
def acquireThreadStatusText (reg : List (String × TextState)) (key : String)
    (cfg : TextCfg) (hasSG : Bool) : List (String × TextState) × Nat :=
  match lookupA key reg with
  | some m => (setA key (textAcquire m hasSG) reg, m.nextHid)
  | none => (setA key (textAcquire (textInit cfg) hasSG) reg, 0)

/-! ## Phase/counter-variant `ThreadStatusManager`
(`src/slack/monitor/thread-status.ts`) -/

/-- The three status phases. -/
inductive StatusPhase where
  | reading
  | thinking
  | reasoning
  deriving DecidableEq

/-- `PHASE_LABELS`. -/
def PHASE_LABELS : StatusPhase → String
  | .reading => "reading messages..."
  | .thinking => "thinking"
  | .reasoning => "reasoning"

/-- `formatStatus`: fixed label for `reading`, `"<label> <seconds>s"`
otherwise. -/
def formatStatus (phase : StatusPhase) (seconds : Nat) : String :=
  if phase = .reading then PHASE_LABELS .reading
  else PHASE_LABELS phase ++ " " ++ toString seconds ++ "s"

/-- Readonly constructor parameters of the phase-variant manager;
the injected functions are represented by identity tokens. -/
structure PhaseCfg where
  graceMs : Nat
  pushFnId : Nat
  onErrorId : Option Nat
  deriving DecidableEq

/-- Mutable state of one phase-variant `ThreadStatusManager`; `inflight`
counts the calls to the injected `push` currently awaited (in this variant
every push goes through the gated `pushOnce`, so it mirrors `pushing`). -/
structure PhaseState where
  cfg : PhaseCfg
  phase : Option StatusPhase
  seconds : Nat
  activeHandles : Int
  counterTimer : Bool
  graceTimer : Bool
  pushing : Bool
  inflight : Nat
  inRegistry : Bool
  handles : List (Nat × MgrHandle)
  nextHid : Nat
  deriving DecidableEq

/-- Observable effect of the phase-variant manager. -/
inductive POut where
  | push (text : String)
  deriving DecidableEq

/-- `pushOnce` of the phase variant: gated — returns at once while a push
is in flight, otherwise sets `pushing` and invokes `push`. -/
def phasePushOnce (s : PhaseState) (text : String) : PhaseState × List POut :=
  if s.pushing then (s, [])
  else ({ s with pushing := true, inflight := s.inflight + 1 }, [.push text])

/-- `destroy`: cancel grace, stop the counter, delete from the registry. -/
def phaseDestroy (s : PhaseState) : PhaseState :=
  { s with graceTimer := false, counterTimer := false, inRegistry := false }

/-- `acquire`: increment `activeHandles`, cancel any pending grace timer,
hand out a fresh handle closure. -/
def phaseAcquire (s : PhaseState) (hasSG : Bool) : PhaseState :=
  { s with
    activeHandles := s.activeHandles + 1,
    graceTimer := false,
    handles := s.handles ++ [(s.nextHid, { released := false, hasSG := hasSG })],
    nextHid := s.nextHid + 1 }

/-- `setPhase`: record the phase at `seconds = 0`, stop the running
counter, push immediately, and start the 1-second counter except for
`reading`. -/
def phaseSetPhase (s : PhaseState) (p : StatusPhase) : PhaseState × List POut :=
  let s1 := { s with phase := some p, seconds := 0, counterTimer := false }
  let r := phasePushOnce s1 (formatStatus p 0)
  if p ≠ .reading then ({ r.1 with counterTimer := true }, r.2) else r

/-- `releaseHandle` of the phase variant: decrement (floored at 0), and at
zero destroy immediately when no phase was ever set, stop-and-destroy when
`shouldGrace()` returned `false`, and otherwise freeze the counter and arm
the grace timer.  No empty-string push occurs on any path. -/
def phaseReleaseHandle (s : PhaseState) (graceResult : Option Bool) :
    PhaseState × List POut :=
  let s1 := { s with activeHandles := max 0 (s.activeHandles - 1) }
  if 0 < s1.activeHandles then (s1, [])
  else if s1.phase = none then (phaseDestroy s1, [])
  else if graceResult = some false then (phaseDestroy { s1 with counterTimer := false }, [])
  else ({ s1 with counterTimer := false, graceTimer := true }, [])

/-- Caller calls and scheduler events of the phase-variant manager.
`counterTick` is the 1-second interval callback, `pushEnd` the settling of
the in-flight push, `rePush` the module-level `pushCurrentStatus`. -/
inductive PhaseLabel where
  | acquire (hasSG : Bool)
  | setStatus (hid : Nat) (p : StatusPhase)
  | pause (hid : Nat)
  | release (hid : Nat) (sgv : Bool)
  | counterTick
  | pushEnd
  | graceFire
  | rePush
  deriving DecidableEq

/-- One step of the phase-variant manager. -/
def phaseStep (s : PhaseState) : PhaseLabel → PhaseState × List POut
  | .acquire hasSG => (phaseAcquire s hasSG, [])
  | .setStatus hid p =>
    match lookupA hid s.handles with
    | none => (s, [])
    | some h => if h.released then (s, []) else phaseSetPhase s p
  | .pause hid =>
    match lookupA hid s.handles with
    | none => (s, [])
    | some h =>
      if h.released then (s, []) else ({ s with counterTimer := false }, [])
  | .release hid sgv =>
    match lookupA hid s.handles with
    | none => (s, [])
    | some h =>
      if h.released then (s, [])
      else
        phaseReleaseHandle { s with handles := setReleased hid s.handles }
          (if h.hasSG then some sgv else none)
  | .counterTick =>
    if s.counterTimer then
      match s.phase with
      | none => (s, [])
      | some p =>
        let s1 := { s with seconds := s.seconds + 1 }
        phasePushOnce s1 (formatStatus p s1.seconds)
    else (s, [])
  | .pushEnd =>
    if s.pushing then ({ s with pushing := false, inflight := s.inflight - 1 }, [])
    else (s, [])
  | .graceFire =>
    if s.graceTimer then (phaseDestroy { s with graceTimer := false }, [])
    else (s, [])
  | .rePush =>
    match s.phase with
    | none => (s, [])
    | some p => phasePushOnce s (formatStatus p s.seconds)

/-- Run a trace of phase-manager labels, collecting outputs. -/
def phaseRun (s : PhaseState) : List PhaseLabel → PhaseState × List POut
  | [] => (s, [])
  | l :: ls =>
    let r1 := phaseStep s l
    let r2 := phaseRun r1.1 ls
    (r2.1, r1.2 ++ r2.2)

/-- A freshly constructed phase-variant manager. -/
def phaseInit (cfg : PhaseCfg) : PhaseState :=
  { cfg := cfg, phase := none, seconds := 0, activeHandles := 0,
    counterTimer := false, graceTimer := false, pushing := false,
    inflight := 0, inRegistry := true, handles := [], nextHid := 0 }

/-- `acquireThreadStatus` for the phase variant. -/
def acquireThreadStatusPhase (reg : List (String × PhaseState)) (key : String)
    (cfg : PhaseCfg) (hasSG : Bool) : List (String × PhaseState) × Nat :=
  match lookupA key reg with
  | some m => (setA key (phaseAcquire m hasSG) reg, m.nextHid)
  | none => (setA key (phaseAcquire (phaseInit cfg) hasSG) reg, 0)

/-! ## `TypingController` (`createTypingController`) -/

/-- The two indicator phases of the typing controller. -/
inductive TCPhase where
  | thinking
  | typing
  deriving DecidableEq

/-- Construction parameters of `createTypingController`: which optional
callbacks were supplied, the trigger interval (`typingIntervalSeconds *
1000`), the TTL, and whether a silent-reply token is configured. -/
structure TCCfg where
  hasOnReplyStart : Bool
  hasOnCleanup : Bool
  hasOnPhaseChange : Bool
  hasLog : Bool
  typingIntervalMs : Nat
  typingTtlMs : Nat
  hasSilentToken : Bool
  deriving DecidableEq

/-- Closure state of one typing controller.  `typingTimer` carries the
interval of the running `setInterval` when one exists, `ttlTimer` whether
the TTL `setTimeout` is pending. -/
structure TCState where
  cfg : TCCfg
  started : Bool
  active : Bool
  runComplete : Bool
  dispatchIdle : Bool
  transitioning : Bool
  sealed : Bool
  phase : Option TCPhase
  typingTimer : Option Nat
  ttlTimer : Bool
  deriving DecidableEq

/-- Injected callbacks of the typing controller, as observable events. -/
inductive TCOut where
  | trigger
  | cleanupCb
  | phaseChange (p : TCPhase)
  | logMsg
  deriving DecidableEq

/-- `triggerTyping`: invoke `onReplyStart` unless sealed (or absent). -/
def tcTriggerOuts (s : TCState) : List TCOut :=
  if s.sealed then [] else if s.cfg.hasOnReplyStart then [.trigger] else []

/-- `resetCycle`: clear every per-run flag and the phase. -/
def tcResetCycle (s : TCState) : TCState :=
  { s with started := false, active := false, runComplete := false,
           dispatchIdle := false, transitioning := false, phase := none }

/-- `cleanup`: stop both timers, fire `onCleanup` when the indicator was
active, reset the cycle and seal the controller; a no-op while sealed. -/
def tcCleanup (s : TCState) : TCState × List TCOut :=
  if s.sealed then (s, [])
  else
    let s1 := { s with ttlTimer := false, typingTimer := none }
    let outs := if s1.active then
        (if s1.cfg.hasOnCleanup then [.cleanupCb] else []) else []
    ({ tcResetCycle s1 with sealed := true }, outs)

/-- `refreshTypingTtl`: re-arm the TTL timer unless sealed or either the
interval or the TTL is configured away. -/
def tcRefreshTtl (s : TCState) : TCState :=
  if s.sealed then s
  else if s.cfg.typingIntervalMs = 0 then s
  else if s.cfg.typingTtlMs = 0 then s
  else { s with ttlTimer := true }

/-- `ensureStart` (exposed as `onReplyStart`): mark active, and on the
first call also mark started and fire one trigger; no-op when sealed or
after the run completed. -/
def tcEnsureStart (s : TCState) : TCState × List TCOut :=
  if s.sealed then (s, [])
  else if s.runComplete then (s, [])
  else
    let s1 := { s with active := true }
    if s1.started then (s1, [])
    else ({ s1 with started := true }, tcTriggerOuts { s1 with started := true })

/-- `maybeStopOnIdle`: cleanup once both done signals are in, but only
while the indicator is active. -/
def tcMaybeStopOnIdle (s : TCState) : TCState × List TCOut :=
  if !s.active then (s, [])
  else if s.runComplete && s.dispatchIdle then tcCleanup s
  else (s, [])

/-- `markRunComplete`: record the model-finished signal (unguarded by
`sealed`) and try to stop. -/
def tcMarkRunComplete (s : TCState) : TCState × List TCOut :=
  tcMaybeStopOnIdle { s with runComplete := true }

/-- `markDispatchIdle`: record the queue-drained signal (unguarded by
`sealed`), try to stop, and re-trigger once when a follow-up transition is
waiting. -/
def tcMarkDispatchIdle (s : TCState) : TCState × List TCOut :=
  let r := tcMaybeStopOnIdle { s with dispatchIdle := true }
  if r.1.transitioning && r.1.active && !r.1.sealed then
    ({ r.1 with transitioning := false }, r.2 ++ tcTriggerOuts r.1)
  else r

/-- `startThinkingLoop`: enter the thinking phase if none is set, refresh
the TTL, and start the recurring trigger when possible. -/
def tcStartThinkingLoop (s : TCState) : TCState × List TCOut :=
  if s.sealed then (s, [])
  else if s.runComplete then (s, [])
  else
    let r1 : TCState × List TCOut :=
      if s.phase = none then
        ({ s with phase := some .thinking },
         if s.cfg.hasOnPhaseChange then [.phaseChange .thinking] else [])
      else (s, [])
    let s2 := tcRefreshTtl r1.1
    if !s.cfg.hasOnReplyStart then (s2, r1.2)
    else if s.cfg.typingIntervalMs = 0 then (s2, r1.2)
    else if s2.typingTimer.isSome then (s2, r1.2)
    else
      let r2 := tcEnsureStart s2
      ({ r2.1 with typingTimer := some s.cfg.typingIntervalMs }, r1.2 ++ r2.2)

/-- `startTypingLoop`: like the thinking loop but upgrading
`thinking → typing` in place fires one immediate extra trigger when the
timer is already running. -/
def tcStartTypingLoop (s : TCState) : TCState × List TCOut :=
  if s.sealed then (s, [])
  else if s.runComplete then (s, [])
  else
    let upgraded := s.phase = some .thinking
    let r1 : TCState × List TCOut :=
      if s.phase = none ∨ s.phase = some .thinking then
        ({ s with phase := some .typing },
         if s.cfg.hasOnPhaseChange then [.phaseChange .typing] else [])
      else (s, [])
    let s2 := tcRefreshTtl r1.1
    if !s.cfg.hasOnReplyStart then (s2, r1.2)
    else if s.cfg.typingIntervalMs = 0 then (s2, r1.2)
    else if s2.typingTimer.isSome then
      if upgraded then (s2, r1.2 ++ tcTriggerOuts s2) else (s2, r1.2)
    else
      let r2 := tcEnsureStart s2
      ({ r2.1 with typingTimer := some s.cfg.typingIntervalMs }, r1.2 ++ r2.2)

/-- `startTypingOnText`: gate on a non-empty trimmed text and the silent
token, then refresh the TTL and start the typing loop.  The text checks
are carried as booleans (`nonempty` = the trimmed text is non-empty,
`silent` = `isSilentReplyText` holds), since the text itself is opaque
here. -/
def tcStartTypingOnText (s : TCState) (nonempty silent : Bool) :
    TCState × List TCOut :=
  if s.sealed then (s, [])
  else if !nonempty then (s, [])
  else if s.cfg.hasSilentToken && silent then (s, [])
  else tcStartTypingLoop (tcRefreshTtl s)

/-- `transitionToFollowup`: keep the controller alive, re-arm for a
follow-up run, switch to thinking (with an immediate trigger on change)
and restart the trigger timer at `min(interval, 2000)`. -/
def tcTransitionToFollowup (s : TCState) : TCState × List TCOut :=
  if s.sealed then (s, [])
  else
    let s1 := { s with started := false, runComplete := false, transitioning := true }
    let r1 : TCState × List TCOut :=
      if s1.phase ≠ some TCPhase.thinking then
        ({ s1 with phase := some .thinking },
         (if s1.cfg.hasOnPhaseChange then [.phaseChange .thinking] else [])
           ++ tcTriggerOuts { s1 with phase := some .thinking })
      else (s1, [])
    if s.cfg.hasOnReplyStart ∧ 0 < s.cfg.typingIntervalMs then
      ({ r1.1 with typingTimer := some (min s.cfg.typingIntervalMs 2000) }, r1.2)
    else r1

/-- `resetForFollowup`: clear both timers, un-seal, reset the flags and
force `dispatchIdle := true`. -/
def tcResetForFollowup (s : TCState) : TCState :=
  { s with ttlTimer := false, typingTimer := none, sealed := false,
           started := false, active := false, runComplete := false,
           transitioning := false, dispatchIdle := true, phase := none }

/-- The public operations of the controller record, plus the two timer
callbacks as scheduler events. -/
inductive TCLabel where
  | onReplyStart
  | startThinkingLoop
  | startTypingLoop
  | startTypingOnText (nonempty silent : Bool)
  | refreshTypingTtl
  | markRunComplete
  | markDispatchIdle
  | transitionToFollowup
  | resetForFollowup
  | cleanup
  | timerTick
  | ttlFire
  deriving DecidableEq

/-- One step of the typing controller. -/
def tcStep (s : TCState) : TCLabel → TCState × List TCOut
  | .onReplyStart => tcEnsureStart s
  | .startThinkingLoop => tcStartThinkingLoop s
  | .startTypingLoop => tcStartTypingLoop s
  | .startTypingOnText ne sil => tcStartTypingOnText s ne sil
  | .refreshTypingTtl => (tcRefreshTtl s, [])
  | .markRunComplete => tcMarkRunComplete s
  | .markDispatchIdle => tcMarkDispatchIdle s
  | .transitionToFollowup => tcTransitionToFollowup s
  | .resetForFollowup => (tcResetForFollowup s, [])
  | .cleanup => tcCleanup s
  | .timerTick => if s.typingTimer.isSome then (s, tcTriggerOuts s) else (s, [])
  | .ttlFire =>
    if s.ttlTimer then
      let s0 := { s with ttlTimer := false }
      if s0.typingTimer.isNone then (s0, [])
      else
        let r := tcCleanup s0
        (r.1, (if s0.cfg.hasLog then [.logMsg] else []) ++ r.2)
    else (s, [])

/-- Run a trace of typing-controller labels. -/
def tcRun (s : TCState) : List TCLabel → TCState × List TCOut
  | [] => (s, [])
  | l :: ls =>
    let r1 := tcStep s l
    let r2 := tcRun r1.1 ls
    (r2.1, r1.2 ++ r2.2)

/-- A freshly created controller. -/
def tcInit (cfg : TCCfg) : TCState :=
  { cfg := cfg, started := false, active := false, runComplete := false,
    dispatchIdle := false, transitioning := false, sealed := false,
    phase := none, typingTimer := none, ttlTimer := false }

/-! ## C7 — `queueEmbeddedPiMessage` guard conditions -/

/-- C7: `queueEmbeddedPiMessage` returns `true` exactly when a handle is
registered for the sessionId, it is streaming, and it is not compacting
(so in particular `false` whenever `isCompacting()` is true, streaming or
not); the registry state is returned unchanged in every case, and in every
`false` case no capability is invoked (no output at all), while in the
`true` case the stored handle's `queueMessage` is invoked with the text. -/
theorem queueEmbeddedPiMessage_spec (st : RunsState) (sid text : String) :
    ((queueEmbeddedPiMessage st sid text).1 = true ↔
      ∃ h, lookupA sid st.activeRuns = some h ∧
        h.streaming = true ∧ h.compacting = false)
    ∧ (queueEmbeddedPiMessage st sid text).2.1 = st
    ∧ ((queueEmbeddedPiMessage st sid text).1 = false →
        (queueEmbeddedPiMessage st sid text).2.2 = [])
    ∧ (∀ h, lookupA sid st.activeRuns = some h →
        h.streaming = true → h.compacting = false →
        (queueEmbeddedPiMessage st sid text).2.2 =
          [.queueMessage h.hid text]) := by
  unfold queueEmbeddedPiMessage
  cases hl : lookupA sid st.activeRuns with
  | none => simp [hl]
  | some h =>
    by_cases hs : h.streaming <;> by_cases hc : h.compacting <;>
      simp [hl, hs, hc]

/-! ## C3 — `clearActiveEmbeddedRun` frame and effect -/

/-- C3: clearing with a handle that is not identity-equal to the stored
one leaves the whole registry state unchanged and notifies nobody; with
the identity-equal handle it removes the run entry, removes the first
alias mapping to the sessionId, wakes every waiter of that sessionId with
`true` and cancels their timers. -/
theorem clearActiveEmbeddedRun_spec (st : RunsState) (sid : String)
    (h stored : EmbeddedPiQueueHandle)
    (hl : lookupA sid st.activeRuns = some stored) :
    (stored.hid ≠ h.hid → clearActiveEmbeddedRun st sid h = (st, []))
    ∧ (stored.hid = h.hid →
        clearActiveEmbeddedRun st sid h =
          (let ws := (lookupA sid st.waiters).getD []
           ({ st with
              activeRuns := eraseA sid st.activeRuns,
              sessionKeyToSessionId :=
                removeFirstVal sid st.sessionKeyToSessionId,
              waiters := if ws.isEmpty then st.waiters
                         else eraseA sid st.waiters,
              pendingTimers :=
                if ws.isEmpty then st.pendingTimers
                else st.pendingTimers.filter (fun p => !ws.contains p.2) },
           ws.map (fun w => .resolve w true)))) := by
  constructor
  · intro hne
    unfold clearActiveEmbeddedRun
    simp [hl, hne]
  · intro heq
    unfold clearActiveEmbeddedRun notifyEmbeddedRunEnded
    cases hw : lookupA sid st.waiters with
    | none => simp [hl, heq, hw]
    | some ws =>
      by_cases he : ws.isEmpty
      · rw [List.isEmpty_iff] at he
        subst he
        simp [hl, heq, hw]
      · simp [hl, heq, hw, he]

/-- Witness for C3 at a concrete registry state: one run, one alias, two
waiters; the mismatching clear is the identity, the matching clear
removes everything and resolves both waiters. -/
theorem clearActiveEmbeddedRun_spec_witness :
    lookupA "s1" (RunsState.activeRuns
      { activeRuns := [("s1", ⟨7, true, false⟩)],
        sessionKeyToSessionId := [("k1", "s1"), ("k2", "s1")],
        waiters := [("s1", [0, 1])],
        pendingTimers := [("s1", 0), ("s1", 1)],
        nextWid := 2 }) = some ⟨7, true, false⟩ ∧
    clearActiveEmbeddedRun
      { activeRuns := [("s1", ⟨7, true, false⟩)],
        sessionKeyToSessionId := [("k1", "s1"), ("k2", "s1")],
        waiters := [("s1", [0, 1])],
        pendingTimers := [("s1", 0), ("s1", 1)],
        nextWid := 2 } "s1" ⟨9, true, false⟩ =
      ({ activeRuns := [("s1", ⟨7, true, false⟩)],
         sessionKeyToSessionId := [("k1", "s1"), ("k2", "s1")],
         waiters := [("s1", [0, 1])],
         pendingTimers := [("s1", 0), ("s1", 1)],
         nextWid := 2 }, []) ∧
    clearActiveEmbeddedRun
      { activeRuns := [("s1", ⟨7, true, false⟩)],
        sessionKeyToSessionId := [("k1", "s1"), ("k2", "s1")],
        waiters := [("s1", [0, 1])],
        pendingTimers := [("s1", 0), ("s1", 1)],
        nextWid := 2 } "s1" ⟨7, true, false⟩ =
      ({ activeRuns := [],
         sessionKeyToSessionId := [("k2", "s1")],
         waiters := [],
         pendingTimers := [],
         nextWid := 2 },
       [.resolve 0 true, .resolve 1 true]) := by
  refine ⟨by decide, ?_, ?_⟩
  · have := (clearActiveEmbeddedRun_spec
      { activeRuns := [("s1", ⟨7, true, false⟩)],
        sessionKeyToSessionId := [("k1", "s1"), ("k2", "s1")],
        waiters := [("s1", [0, 1])],
        pendingTimers := [("s1", 0), ("s1", 1)],
        nextWid := 2 } "s1" ⟨9, true, false⟩ ⟨7, true, false⟩ (by decide)).1
      (by decide)
    exact this
  · have := (clearActiveEmbeddedRun_spec
      { activeRuns := [("s1", ⟨7, true, false⟩)],
        sessionKeyToSessionId := [("k1", "s1"), ("k2", "s1")],
        waiters := [("s1", [0, 1])],
        pendingTimers := [("s1", 0), ("s1", 1)],
        nextWid := 2 } "s1" ⟨7, true, false⟩ ⟨7, true, false⟩ (by decide)).2
      (by decide)
    rw [this]
    decide

/-! ## Helper lemmas for the manager state machines -/

/-- Looking up a handle after marking it released yields the released
handle. -/
theorem lookupA_setReleased (hid : Nat) :
    ∀ l : List (Nat × MgrHandle),
      lookupA hid (setReleased hid l) =
        (lookupA hid l).map (fun h => { h with released := true })
  | [] => by simp [lookupA, setReleased]
  | (k, v) :: rest => by
    by_cases hk : k = hid
    · simp [setReleased, lookupA, hk]
    · simp [setReleased, lookupA, hk, lookupA_setReleased hid rest]

/-- `releaseHandle` (text variant) never touches the handle list. -/
theorem textReleaseHandle_handles (s : TextState) (gr : Option Bool) :
    (textReleaseHandle s gr).1.handles = s.handles := by
  unfold textReleaseHandle textDestroy
  dsimp only
  split
  · rfl
  · split
    · rfl
    · split <;> rfl

/-- `releaseHandle` (phase variant) never touches the handle list. -/
theorem phaseReleaseHandle_handles (s : PhaseState) (gr : Option Bool) :
    (phaseReleaseHandle s gr).1.handles = s.handles := by
  unfold phaseReleaseHandle phaseDestroy
  dsimp only
  split
  · rfl
  · split
    · rfl
    · split <;> rfl

/-- Case analysis of a text-variant `release hid` step: either the handle
was absent or already released and nothing happens, or it is found live
and ends up marked released. -/
theorem textStep_release_cases (s : TextState) (hid : Nat) (sgv : Bool) :
    (textStep s (.release hid sgv) = (s, []) ∧
      (lookupA hid s.handles = none ∨
        ∃ h, lookupA hid s.handles = some h ∧ h.released = true)) ∨
    lookupA hid (textStep s (.release hid sgv)).1.handles =
      some { released := true,
             hasSG := ((lookupA hid s.handles).map MgrHandle.hasSG).getD false } := by
  simp only [textStep]
  cases hl : lookupA hid s.handles with
  | none => exact .inl ⟨rfl, .inl rfl⟩
  | some h =>
    by_cases hr : h.released
    · exact .inl ⟨by simp [hr], .inr ⟨h, rfl, hr⟩⟩
    · right
      simp only [hr, Bool.false_eq_true, if_false]
      rw [textReleaseHandle_handles]
      simp [lookupA_setReleased, hl]

/-- Case analysis of a phase-variant `release hid` step. -/
theorem phaseStep_release_cases (s : PhaseState) (hid : Nat) (sgv : Bool) :
    (phaseStep s (.release hid sgv) = (s, []) ∧
      (lookupA hid s.handles = none ∨
        ∃ h, lookupA hid s.handles = some h ∧ h.released = true)) ∨
    lookupA hid (phaseStep s (.release hid sgv)).1.handles =
      some { released := true,
             hasSG := ((lookupA hid s.handles).map MgrHandle.hasSG).getD false } := by
  simp only [phaseStep]
  cases hl : lookupA hid s.handles with
  | none => exact .inl ⟨rfl, .inl rfl⟩
  | some h =>
    by_cases hr : h.released
    · exact .inl ⟨by simp [hr], .inr ⟨h, rfl, hr⟩⟩
    · right
      simp only [hr, Bool.false_eq_true, if_false]
      rw [phaseReleaseHandle_handles]
      simp [lookupA_setReleased, hl]

/-! ## C8 — release is idempotent; released handles are inert -/

/-- C8: in both manager variants, a second (or any later) `release` on the
same handle is a complete no-op — the state after two releases is exactly
the state after one, with no output — and `setStatus` (and `pause`, in the
phase variant) on a released handle changes nothing and pushes nothing. -/
theorem handle_release_idempotent (s : TextState) (ps : PhaseState)
    (hid : Nat) (sgv sgv' : Bool) (t : String) (p : StatusPhase) :
    (textStep (textStep s (.release hid sgv)).1 (.release hid sgv') =
        ((textStep s (.release hid sgv)).1, [])
      ∧ textStep (textStep s (.release hid sgv)).1 (.setStatus hid t) =
        ((textStep s (.release hid sgv)).1, []))
    ∧ (phaseStep (phaseStep ps (.release hid sgv)).1 (.release hid sgv') =
        ((phaseStep ps (.release hid sgv)).1, [])
      ∧ phaseStep (phaseStep ps (.release hid sgv)).1 (.setStatus hid p) =
        ((phaseStep ps (.release hid sgv)).1, [])
      ∧ phaseStep (phaseStep ps (.release hid sgv)).1 (.pause hid) =
        ((phaseStep ps (.release hid sgv)).1, [])) := by
  constructor
  · rcases textStep_release_cases s hid sgv with ⟨heq, hcase⟩ | hpost
    · rw [heq]
      rcases hcase with hl | ⟨h, hl, hr⟩
      · exact ⟨by simp [textStep, hl], by simp [textStep, hl]⟩
      · exact ⟨by simp [textStep, hl, hr], by simp [textStep, hl, hr]⟩
    · obtain ⟨s1, hs1⟩ : ∃ s1, (textStep s (.release hid sgv)).1 = s1 := ⟨_, rfl⟩
      rw [hs1] at hpost ⊢
      exact ⟨by simp [textStep, hpost], by simp [textStep, hpost]⟩
  · rcases phaseStep_release_cases ps hid sgv with ⟨heq, hcase⟩ | hpost
    · rw [heq]
      rcases hcase with hl | ⟨h, hl, hr⟩
      · exact ⟨by simp [phaseStep, hl], by simp [phaseStep, hl],
          by simp [phaseStep, hl]⟩
      · exact ⟨by simp [phaseStep, hl, hr], by simp [phaseStep, hl, hr],
          by simp [phaseStep, hl, hr]⟩
    · obtain ⟨s1, hs1⟩ : ∃ s1, (phaseStep ps (.release hid sgv)).1 = s1 := ⟨_, rfl⟩
      rw [hs1] at hpost ⊢
      exact ⟨by simp [phaseStep, hpost], by simp [phaseStep, hpost],
        by simp [phaseStep, hpost]⟩

/-- The gated tick push never changes the configuration. -/
theorem textPushTick_cfg (s : TextState) : (textPushTick s).1.cfg = s.cfg := by
  unfold textPushTick
  split <;> rfl

/-- `releaseHandle` (text variant) never changes the configuration. -/
theorem textReleaseHandle_cfg (s : TextState) (gr : Option Bool) :
    (textReleaseHandle s gr).1.cfg = s.cfg := by
  unfold textReleaseHandle textDestroy
  dsimp only
  split
  · rfl
  · split
    · rfl
    · split <;> rfl

/-- No step of the text-variant manager changes the configuration fixed at
construction: the creating call's `push`, intervals, grace text and error
callback govern every later push. -/
theorem textStep_cfg (s : TextState) (l : TextLabel) :
    (textStep s l).1.cfg = s.cfg := by
  cases l with
  | acquire hasSG => rfl
  | setStatus hid text =>
    simp only [textStep]
    cases lookupA hid s.handles with
    | none => rfl
    | some h =>
      by_cases hr : h.released
      · simp [hr]
      · simp only [hr, Bool.false_eq_true, if_false]
        split
        · exact textPushTick_cfg _
        · rfl
  | release hid sgv =>
    simp only [textStep]
    cases lookupA hid s.handles with
    | none => rfl
    | some h =>
      by_cases hr : h.released
      · simp [hr]
      · simp only [hr, Bool.false_eq_true, if_false]
        exact textReleaseHandle_cfg _ _
  | tick =>
    simp only [textStep]
    split
    · exact textPushTick_cfg _
    · rfl
  | tickEnd => simp only [textStep]; split <;> rfl
  | graceFire => simp only [textStep]; split <;> rfl
  | clearEnd => simp only [textStep]; split <;> rfl

/-- The gated `pushOnce` never changes the configuration. -/
theorem phasePushOnce_cfg (s : PhaseState) (t : String) :
    (phasePushOnce s t).1.cfg = s.cfg := by
  unfold phasePushOnce
  split <;> rfl

/-- `setPhase` never changes the configuration. -/
theorem phaseSetPhase_cfg (s : PhaseState) (p : StatusPhase) :
    (phaseSetPhase s p).1.cfg = s.cfg := by
  unfold phaseSetPhase
  dsimp only
  split
  · exact phasePushOnce_cfg _ _
  · exact phasePushOnce_cfg _ _

/-- `releaseHandle` (phase variant) never changes the configuration. -/
theorem phaseReleaseHandle_cfg (s : PhaseState) (gr : Option Bool) :
    (phaseReleaseHandle s gr).1.cfg = s.cfg := by
  unfold phaseReleaseHandle phaseDestroy
  dsimp only
  split
  · rfl
  · split
    · rfl
    · split <;> rfl

/-- No step of the phase-variant manager changes the configuration fixed
at construction. -/
theorem phaseStep_cfg (s : PhaseState) (l : PhaseLabel) :
    (phaseStep s l).1.cfg = s.cfg := by
  cases l with
  | acquire hasSG => rfl
  | setStatus hid p =>
    simp only [phaseStep]
    cases lookupA hid s.handles with
    | none => rfl
    | some h =>
      by_cases hr : h.released
      · simp [hr]
      · simp only [hr, Bool.false_eq_true, if_false]
        exact phaseSetPhase_cfg _ _
  | pause hid =>
    simp only [phaseStep]
    cases lookupA hid s.handles with
    | none => rfl
    | some h =>
      by_cases hr : h.released
      · simp [hr]
      · simp [hr]
  | release hid sgv =>
    simp only [phaseStep]
    cases lookupA hid s.handles with
    | none => rfl
    | some h =>
      by_cases hr : h.released
      · simp [hr]
      · simp only [hr, Bool.false_eq_true, if_false]
        exact phaseReleaseHandle_cfg _ _
  | counterTick =>
    simp only [phaseStep]
    split
    · cases s.phase with
      | none => rfl
      | some p => exact phasePushOnce_cfg _ _
    · rfl
  | pushEnd => simp only [phaseStep]; split <;> rfl
  | graceFire => simp only [phaseStep]; split <;> rfl
  | rePush =>
    simp only [phaseStep]
    cases s.phase with
    | none => rfl
    | some p => exact phasePushOnce_cfg _ _

/-! ## C10 — re-acquiring an existing manager discards the new
configuration -/

/-- C10: when `acquireThreadStatus` (either variant) hits an existing
manager, the registry is updated with that same manager (only `acquire`
applied to it), so the result is identical whatever `push`,
`pushIntervalMs`, `graceMs`, `graceText` and `onError` the later call
passed; `acquire` preserves the stored configuration and only attaches the
later call's `shouldGrace` to the fresh handle.  On the creating path the
manager is built from the creating call's configuration, and no step of
either manager ever changes its configuration afterwards. -/
theorem acquireThreadStatus_reuse (reg : List (String × TextState))
    (preg : List (String × PhaseState)) (key : String) (m : TextState)
    (pm : PhaseState) (p p' : TextCfg) (q q' : PhaseCfg) (hasSG : Bool) :
    (lookupA key reg = some m →
      acquireThreadStatusText reg key p' hasSG =
        (setA key (textAcquire m hasSG) reg, m.nextHid)
      ∧ acquireThreadStatusText reg key p' hasSG =
        acquireThreadStatusText reg key p hasSG
      ∧ (textAcquire m hasSG).cfg = m.cfg
      ∧ (textAcquire m hasSG).handles =
          m.handles ++ [(m.nextHid, { released := false, hasSG := hasSG })])
    ∧ (lookupA key reg = none →
      acquireThreadStatusText reg key p hasSG =
        (setA key (textAcquire (textInit p) hasSG) reg, 0)
      ∧ (textInit p).cfg = p)
    ∧ (∀ (s : TextState) (l : TextLabel), (textStep s l).1.cfg = s.cfg)
    ∧ (lookupA key preg = some pm →
      acquireThreadStatusPhase preg key q' hasSG =
        (setA key (phaseAcquire pm hasSG) preg, pm.nextHid)
      ∧ acquireThreadStatusPhase preg key q' hasSG =
        acquireThreadStatusPhase preg key q hasSG
      ∧ (phaseAcquire pm hasSG).cfg = pm.cfg
      ∧ (phaseAcquire pm hasSG).handles =
          pm.handles ++ [(pm.nextHid, { released := false, hasSG := hasSG })])
    ∧ (∀ (s : PhaseState) (l : PhaseLabel), (phaseStep s l).1.cfg = s.cfg) := by
  refine ⟨?_, ?_, textStep_cfg, ?_, phaseStep_cfg⟩
  · intro hl
    refine ⟨?_, ?_, rfl, rfl⟩ <;> simp [acquireThreadStatusText, hl]
  · intro hl
    exact ⟨by simp [acquireThreadStatusText, hl], rfl⟩
  · intro hl
    refine ⟨?_, ?_, rfl, rfl⟩ <;> simp [acquireThreadStatusPhase, hl]

/-! ## C5 — what the phase variant pushes on release -/

/-- `formatStatus` never yields the empty string. -/
theorem formatStatus_ne_empty (p : StatusPhase) (n : Nat) :
    formatStatus p n ≠ "" := by
  cases p with
  | reading =>
    have hv : formatStatus .reading n = "reading messages..." := rfl
    rw [hv]
    decide
  | thinking =>
    intro h
    have := congrArg String.length h
    simp [formatStatus, PHASE_LABELS, String.length_append] at this
    exact absurd this.2 (by decide)
  | reasoning =>
    intro h
    have := congrArg String.length h
    simp [formatStatus, PHASE_LABELS, String.length_append] at this
    exact absurd this.2 (by decide)

/-- Every output of the gated `pushOnce` carries exactly its argument. -/
theorem phasePushOnce_outs (s : PhaseState) (t : String) (o : POut)
    (ho : o ∈ (phasePushOnce s t).2) : o = .push t := by
  unfold phasePushOnce at ho
  split at ho <;> simp_all

/-- `releaseHandle` of the phase variant emits no output on any path. -/
theorem phaseReleaseHandle_outs (s : PhaseState) (gr : Option Bool) :
    (phaseReleaseHandle s gr).2 = [] := by
  unfold phaseReleaseHandle phaseDestroy
  dsimp only
  split
  · rfl
  · split
    · rfl
    · split <;> rfl

/-- At the last handle (refcount at most 1) with a phase set,
`releaseHandle` emits nothing and either stops-and-destroys
(`shouldGrace()` returned `false`) or freezes the counter and arms the
grace timer. -/
theorem phaseReleaseHandle_at_zero (s : PhaseState) (gr : Option Bool)
    (hle : s.activeHandles ≤ 1) (hp : s.phase ≠ none) :
    phaseReleaseHandle s gr =
      (if gr = some false then
        phaseDestroy { s with activeHandles := max 0 (s.activeHandles - 1),
                              counterTimer := false }
       else { s with activeHandles := max 0 (s.activeHandles - 1),
                     counterTimer := false, graceTimer := true }, []) := by
  unfold phaseReleaseHandle
  dsimp only
  rw [if_neg (by omega : ¬ (0 : Int) < max 0 (s.activeHandles - 1))]
  rw [if_neg hp]
  split <;> rfl

/-- The phase-variant manager never invokes `push` with the empty string:
every push it ever makes goes through `formatStatus`. -/
theorem phaseStep_no_empty_push (s : PhaseState) (l : PhaseLabel) :
    POut.push "" ∉ (phaseStep s l).2 := by
  intro hmem
  cases l with
  | acquire hasSG => simp [phaseStep] at hmem
  | setStatus hid p =>
    simp only [phaseStep] at hmem
    rcases hl : lookupA hid s.handles with _ | h <;> rw [hl] at hmem
    · simp at hmem
    · by_cases hr : h.released
      · simp [hr] at hmem
      · simp only [hr, Bool.false_eq_true, if_false] at hmem
        unfold phaseSetPhase at hmem
        dsimp only at hmem
        have : POut.push "" = .push (formatStatus p 0) := by
          split at hmem
          · exact phasePushOnce_outs _ _ _ hmem
          · exact phasePushOnce_outs _ _ _ hmem
        simp at this
        exact formatStatus_ne_empty p 0 this.symm
  | pause hid =>
    simp only [phaseStep] at hmem
    rcases hl : lookupA hid s.handles with _ | h <;> rw [hl] at hmem
    · simp at hmem
    · by_cases hr : h.released <;> simp [hr] at hmem
  | release hid sgv =>
    simp only [phaseStep] at hmem
    rcases hl : lookupA hid s.handles with _ | h <;> rw [hl] at hmem
    · simp at hmem
    · by_cases hr : h.released
      · simp [hr] at hmem
      · simp only [hr, Bool.false_eq_true, if_false] at hmem
        rw [phaseReleaseHandle_outs] at hmem
        simp at hmem
  | counterTick =>
    simp only [phaseStep] at hmem
    split at hmem
    · rcases hp : s.phase with _ | p <;> rw [hp] at hmem
      · simp at hmem
      · have := phasePushOnce_outs _ _ _ hmem
        simp at this
        exact formatStatus_ne_empty p (s.seconds + 1) this.symm
    · simp at hmem
  | pushEnd =>
    simp only [phaseStep] at hmem
    split at hmem <;> simp at hmem
  | graceFire =>
    simp only [phaseStep] at hmem
    split at hmem <;> simp at hmem
  | rePush =>
    simp only [phaseStep] at hmem
    rcases hp : s.phase with _ | p <;> rw [hp] at hmem
    · simp at hmem
    · have := phasePushOnce_outs _ _ _ hmem
      simp at this
      exact formatStatus_ne_empty p s.seconds this.symm

/-- Counterexample to C5: in the phase/counter variant, a release that
brings `activeHandles` to 0 after `setStatus(thinking)` destroys the
manager without ever pushing `""` — both on the `shouldGrace() = false`
path and at the end of the grace period. -/
theorem phase_release_pushes_empty_cex :
    ((phaseRun (phaseInit ⟨5000, 0, none⟩)
        [.acquire true, .setStatus 0 .thinking, .release 0 false]).1.inRegistry = false
      ∧ POut.push "" ∉ (phaseRun (phaseInit ⟨5000, 0, none⟩)
          [.acquire true, .setStatus 0 .thinking, .release 0 false]).2)
    ∧ ((phaseRun (phaseInit ⟨5000, 0, none⟩)
        [.acquire true, .setStatus 0 .thinking, .release 0 true, .graceFire]).1.inRegistry = false
      ∧ POut.push "" ∉ (phaseRun (phaseInit ⟨5000, 0, none⟩)
          [.acquire true, .setStatus 0 .thinking, .release 0 true, .graceFire]).2) := by
  decide

/-- C5 (amended): when a phase-variant `release` brings `activeHandles`
to 0 after a phase was set, no push of any kind is emitted: with
`shouldGrace() = false` the manager stops its timers and is destroyed
immediately; otherwise the counter is frozen and the grace timer armed,
and when the grace timer fires uncancelled the manager is destroyed —
the phase variant never pushes the empty string on any step (it relies on
the channel auto-clearing the indicator). -/
theorem phase_release_stop_spec :
    (∀ (s : PhaseState) (l : PhaseLabel), POut.push "" ∉ (phaseStep s l).2)
    ∧ (∀ (s : PhaseState) (hid : Nat) (h : MgrHandle),
        lookupA hid s.handles = some h → h.released = false → h.hasSG = true →
        s.activeHandles ≤ 1 → s.phase ≠ none →
        (phaseStep s (.release hid false)).2 = []
        ∧ (phaseStep s (.release hid false)).1.inRegistry = false
        ∧ (phaseStep s (.release hid false)).1.counterTimer = false
        ∧ (phaseStep s (.release hid false)).1.graceTimer = false)
    ∧ (∀ (s : PhaseState) (hid : Nat) (h : MgrHandle),
        lookupA hid s.handles = some h → h.released = false → h.hasSG = true →
        s.activeHandles ≤ 1 → s.phase ≠ none →
        (phaseStep s (.release hid true)).2 = []
        ∧ (phaseStep s (.release hid true)).1.counterTimer = false
        ∧ (phaseStep s (.release hid true)).1.graceTimer = true
        ∧ (phaseStep s (.release hid true)).1.inRegistry = s.inRegistry)
    ∧ (∀ s : PhaseState, s.graceTimer = true →
        phaseStep s .graceFire = (phaseDestroy { s with graceTimer := false }, [])) := by
  refine ⟨phaseStep_no_empty_push, ?_, ?_, ?_⟩
  · intro s hid h hl hr hsg hle hp
    have hr' : ¬ h.released = true := by simp [hr]
    simp only [phaseStep, hl]
    rw [if_neg hr', if_pos hsg,
      phaseReleaseHandle_at_zero { s with handles := setReleased hid s.handles }
        (some false) hle hp]
    simp [phaseDestroy]
  · intro s hid h hl hr hsg hle hp
    have hr' : ¬ h.released = true := by simp [hr]
    simp only [phaseStep, hl]
    rw [if_neg hr', if_pos hsg,
      phaseReleaseHandle_at_zero { s with handles := setReleased hid s.handles }
        (some true) hle hp]
    simp [phaseDestroy]
  · intro s hg
    simp [phaseStep, hg]

/-- Witness for the release conjuncts of the amended C5 at a concrete
state: one live handle holding the thinking phase. -/
theorem phase_release_stop_spec_witness :
    ((phaseStep (phaseRun (phaseInit ⟨5000, 0, none⟩)
        [.acquire true, .setStatus 0 .thinking]).1 (.release 0 false)).1.inRegistry
      = false)
    ∧ ((phaseStep (phaseRun (phaseInit ⟨5000, 0, none⟩)
        [.acquire true, .setStatus 0 .thinking]).1 (.release 0 true)).1.graceTimer
      = true) := by
  refine ⟨(phase_release_stop_spec.2.1 _ 0 ⟨false, true⟩
      (by decide) rfl rfl (by decide) (by decide)).2.1,
    (phase_release_stop_spec.2.2.1 _ 0 ⟨false, true⟩
      (by decide) rfl rfl (by decide) (by decide)).2.2.1⟩

/-! ## C1 — at most one push in flight -/

/-- Counterexample to C1: in the text variant the final clear push
(`pushOnce("")` on the release path) bypasses the `pushing` gate, so with
a slow push a release can overlap the in-flight tick push: after
`acquire; setStatus("x"); release` (with `shouldGrace() = false` and the
initial push still unsettled) two calls to the injected `push` are in
flight at once. -/
theorem text_push_overlap_cex :
    textInflight (textRun (textInit ⟨100, 5000, "is thinking...", 0, none⟩)
      [.acquire true, .setStatus 0 "x", .release 0 false]).1 = 2
    ∧ (textRun (textInit ⟨100, 5000, "is thinking...", 0, none⟩)
        [.acquire true, .setStatus 0 "x", .release 0 false]).2 =
      [.push "x", .push ""] := by
  decide

/-- The gated `pushOnce` obeys the in-flight invariant. -/
theorem phasePushOnce_gateInv (s : PhaseState) (t : String)
    (h : s.inflight = if s.pushing then 1 else 0) :
    (phasePushOnce s t).1.inflight =
      if (phasePushOnce s t).1.pushing then 1 else 0 := by
  unfold phasePushOnce
  split <;> simp_all

/-- Every phase-variant step preserves the in-flight invariant. -/
theorem phaseStep_gateInv (s : PhaseState) (l : PhaseLabel)
    (h : s.inflight = if s.pushing then 1 else 0) :
    (phaseStep s l).1.inflight =
      if (phaseStep s l).1.pushing then 1 else 0 := by
  cases l with
  | acquire hasSG => simpa [phaseStep, phaseAcquire] using h
  | setStatus hid p =>
    cases hl : lookupA hid s.handles with
    | none => simp only [phaseStep, hl]; exact h
    | some hh =>
      by_cases hr : hh.released
      · simp only [phaseStep, hl, hr, if_true]; exact h
      · simp only [phaseStep, hl, hr, Bool.false_eq_true, if_false]
        unfold phaseSetPhase
        dsimp only
        split
        · exact phasePushOnce_gateInv _ _ h
        · exact phasePushOnce_gateInv _ _ h
  | pause hid =>
    cases hl : lookupA hid s.handles with
    | none => simp only [phaseStep, hl]; exact h
    | some hh =>
      by_cases hr : hh.released
      · simp only [phaseStep, hl, hr, if_true]; exact h
      · simp only [phaseStep, hl, hr, Bool.false_eq_true, if_false]; exact h
  | release hid sgv =>
    cases hl : lookupA hid s.handles with
    | none => simp only [phaseStep, hl]; exact h
    | some hh =>
      by_cases hr : hh.released
      · simp only [phaseStep, hl, hr, if_true]; exact h
      · simp only [phaseStep, hl, hr, Bool.false_eq_true, if_false]
        unfold phaseReleaseHandle phaseDestroy
        dsimp only
        split_ifs <;> simp_all
  | counterTick =>
    cases hp : s.phase with
    | none => simp only [phaseStep, hp]; split <;> exact h
    | some p =>
      simp only [phaseStep, hp]
      split
      · exact phasePushOnce_gateInv _ _ h
      · exact h
  | pushEnd =>
    simp only [phaseStep]
    split <;> simp_all
  | graceFire =>
    simp only [phaseStep]
    split
    · simpa [phaseDestroy] using h
    · exact h
  | rePush =>
    cases hp : s.phase with
    | none => simp only [phaseStep, hp]; exact h
    | some p =>
      simp only [phaseStep, hp]
      exact phasePushOnce_gateInv _ _ h

/-- The in-flight invariant along any phase-variant trace. -/
theorem phaseRun_gateInv (s : PhaseState)
    (h : s.inflight = if s.pushing then 1 else 0) :
    ∀ tr : List PhaseLabel,
      (phaseRun s tr).1.inflight = if (phaseRun s tr).1.pushing then 1 else 0
  | [] => h
  | l :: ls => phaseRun_gateInv (phaseStep s l).1 (phaseStep_gateInv s l h) ls

/-- C1 (amended): the phase-variant manager keeps at most one push in
flight across every trace, and while a push is in flight no step invokes
the injected `push` at all (attempts are skipped, never queued); in the
text variant the interval tick is likewise skipped entirely — same state,
no output — while a push is in flight, and so is the immediate push of
`setStatus`, but the final clear pushes of the release and grace-expiry
paths bypass the gate (see the counterexample). -/
theorem push_gate_spec :
    (∀ (cfg : PhaseCfg) (tr : List PhaseLabel),
        (phaseRun (phaseInit cfg) tr).1.inflight ≤ 1)
    ∧ (∀ (s : PhaseState) (l : PhaseLabel), s.pushing = true →
        (phaseStep s l).2 = [])
    ∧ (∀ s : TextState, s.pushing = true → textStep s .tick = (s, []))
    ∧ (∀ (s : TextState) (hid : Nat) (t : String), s.pushing = true →
        (textStep s (.setStatus hid t)).2 = []) := by
  refine ⟨?_, ?_, ?_, ?_⟩
  · intro cfg tr
    have := phaseRun_gateInv (phaseInit cfg) (by simp [phaseInit]) tr
    rw [this]
    split <;> omega
  · intro s l hp
    cases l with
    | acquire hasSG => simp [phaseStep]
    | setStatus hid p =>
      cases hl : lookupA hid s.handles with
      | none => simp only [phaseStep, hl]
      | some hh =>
        by_cases hr : hh.released
        · simp only [phaseStep, hl, hr, if_true]
        · simp only [phaseStep, hl, hr, Bool.false_eq_true, if_false]
          unfold phaseSetPhase phasePushOnce
          dsimp only
          split <;> simp [hp]
    | pause hid =>
      cases hl : lookupA hid s.handles with
      | none => simp only [phaseStep, hl]
      | some hh =>
        by_cases hr : hh.released
        · simp only [phaseStep, hl, hr, if_true]
        · simp only [phaseStep, hl, hr, Bool.false_eq_true, if_false]
    | release hid sgv =>
      cases hl : lookupA hid s.handles with
      | none => simp only [phaseStep, hl]
      | some hh =>
        by_cases hr : hh.released
        · simp only [phaseStep, hl, hr, if_true]
        · simp only [phaseStep, hl, hr, Bool.false_eq_true, if_false]
          exact phaseReleaseHandle_outs _ _
    | counterTick =>
      cases hph : s.phase with
      | none => simp only [phaseStep, hph]; split <;> rfl
      | some p =>
        simp only [phaseStep, hph]
        split
        · simp [phasePushOnce, hp]
        · rfl
    | pushEnd => simp only [phaseStep]; split <;> rfl
    | graceFire => simp only [phaseStep]; split <;> rfl
    | rePush =>
      cases hph : s.phase with
      | none => simp only [phaseStep, hph]
      | some p =>
        simp only [phaseStep, hph]
        simp [phasePushOnce, hp]
  · intro s hp
    simp [textStep, textPushTick, hp]
  · intro s hid t hp
    cases hl : lookupA hid s.handles with
    | none => simp only [textStep, hl]
    | some hh =>
      by_cases hr : hh.released
      · simp only [textStep, hl, hr, if_true]
      · simp only [textStep, hl, hr, Bool.false_eq_true, if_false]
        split
        · simp [textPushTick, hp]
        · rfl

/-! ## C9 — what `sealed` actually freezes in the typing controller -/

/-- Counterexample to C9: `markRunComplete` carries no `sealed` guard.
After `cleanup` seals the controller (resetting `runComplete` to `false`),
calling `markRunComplete` still flips `runComplete` to `true` — the state
is not left unchanged while sealed. -/
theorem tc_sealed_cex :
    (tcRun (tcInit ⟨true, true, true, true, 6000, 120000, true⟩)
      [.cleanup]).1.sealed = true
    ∧ (tcStep (tcRun (tcInit ⟨true, true, true, true, 6000, 120000, true⟩)
          [.cleanup]).1 .markRunComplete).1 ≠
        (tcRun (tcInit ⟨true, true, true, true, 6000, 120000, true⟩)
          [.cleanup]).1 := by
  decide

/-- C9 (amended): while `sealed` is set, every public operation other than
`resetForFollowup` invokes no injected callback, and every one of them
except `markRunComplete` and `markDispatchIdle` is a complete no-op; those
two still record their done-flag (`runComplete` / `dispatchIdle` set to
`true`) but change nothing else and trigger nothing. -/
theorem tc_sealed_spec (s : TCState) (hs : s.sealed = true) :
    tcStep s .onReplyStart = (s, [])
    ∧ tcStep s .startThinkingLoop = (s, [])
    ∧ tcStep s .startTypingLoop = (s, [])
    ∧ (∀ ne sil : Bool, tcStep s (.startTypingOnText ne sil) = (s, []))
    ∧ tcStep s .refreshTypingTtl = (s, [])
    ∧ tcStep s .transitionToFollowup = (s, [])
    ∧ tcStep s .cleanup = (s, [])
    ∧ tcStep s .markRunComplete = ({ s with runComplete := true }, [])
    ∧ tcStep s .markDispatchIdle = ({ s with dispatchIdle := true }, []) := by
  refine ⟨?_, ?_, ?_, ?_, ?_, ?_, ?_, ?_, ?_⟩
  · simp [tcStep, tcEnsureStart, hs]
  · simp [tcStep, tcStartThinkingLoop, hs]
  · simp [tcStep, tcStartTypingLoop, hs]
  · intro ne sil
    simp [tcStep, tcStartTypingOnText, hs]
  · simp [tcStep, tcRefreshTtl, hs]
  · simp [tcStep, tcTransitionToFollowup, hs]
  · simp [tcStep, tcCleanup, hs]
  · simp only [tcStep, tcMarkRunComplete, tcMaybeStopOnIdle, tcCleanup]
    split
    · rfl
    · split
      · simp [hs]
      · rfl
  · simp only [tcStep, tcMarkDispatchIdle, tcMaybeStopOnIdle, tcCleanup]
    split
    · simp [hs]
    · split
      · simp [hs]
      · simp [hs]

/-- Witness for the amended C9: at the concrete sealed state reached by
`cleanup`, `startThinkingLoop` is a no-op and `markRunComplete` only sets
its flag. -/
theorem tc_sealed_spec_witness :
    tcStep (tcRun (tcInit ⟨true, true, true, true, 6000, 120000, true⟩)
        [.cleanup]).1 .startThinkingLoop =
      ((tcRun (tcInit ⟨true, true, true, true, 6000, 120000, true⟩)
        [.cleanup]).1, [])
    ∧ tcStep (tcRun (tcInit ⟨true, true, true, true, 6000, 120000, true⟩)
        [.cleanup]).1 .markRunComplete =
      ({ (tcRun (tcInit ⟨true, true, true, true, 6000, 120000, true⟩)
          [.cleanup]).1 with runComplete := true }, []) := by
  exact ⟨(tc_sealed_spec _ (by decide)).2.1,
    (tc_sealed_spec _ (by decide)).2.2.2.2.2.2.2.1⟩

/-! ## C4 — refcount non-negativity and destroy conditions -/

/-- Traces compose: running a concatenation runs the pieces in order. -/
theorem textRun_append (s : TextState) (a b : List TextLabel) :
    textRun s (a ++ b) =
      ((textRun (textRun s a).1 b).1,
        (textRun s a).2 ++ (textRun (textRun s a).1 b).2) := by
  induction a generalizing s with
  | nil => simp [textRun]
  | cons l ls ih =>
    calc textRun s (l :: ls ++ b)
        = ((textRun (textStep s l).1 (ls ++ b)).1,
           (textStep s l).2 ++ (textRun (textStep s l).1 (ls ++ b)).2) := rfl
      _ = ((textRun (textRun s (l :: ls)).1 b).1,
           (textRun s (l :: ls)).2 ++ (textRun (textRun s (l :: ls)).1 b).2) := by
          rw [ih]
          simp [textRun, List.append_assoc]

/-- Traces compose (phase variant). -/
theorem phaseRun_append (s : PhaseState) (a b : List PhaseLabel) :
    phaseRun s (a ++ b) =
      ((phaseRun (phaseRun s a).1 b).1,
        (phaseRun s a).2 ++ (phaseRun (phaseRun s a).1 b).2) := by
  induction a generalizing s with
  | nil => simp [phaseRun]
  | cons l ls ih =>
    calc phaseRun s (l :: ls ++ b)
        = ((phaseRun (phaseStep s l).1 (ls ++ b)).1,
           (phaseStep s l).2 ++ (phaseRun (phaseStep s l).1 (ls ++ b)).2) := rfl
      _ = ((phaseRun (phaseRun s (l :: ls)).1 b).1,
           (phaseRun s (l :: ls)).2 ++ (phaseRun (phaseRun s (l :: ls)).1 b).2) := by
          rw [ih]
          simp [phaseRun, List.append_assoc]

/-- Invariant of the text-variant manager: the refcount is never negative,
and an armed grace timer means every handle has released. -/
def textInv (s : TextState) : Prop :=
  0 ≤ s.activeHandles ∧ (s.graceTimer = true → s.activeHandles = 0)

/-- Invariant of the phase-variant manager. -/
def phaseInv (s : PhaseState) : Prop :=
  0 ≤ s.activeHandles ∧ (s.graceTimer = true → s.activeHandles = 0)

/-- Every text-variant step preserves the invariant. -/
theorem textStep_inv (s : TextState) (l : TextLabel) (h : textInv s) :
    textInv (textStep s l).1 := by
  obtain ⟨h0, hg⟩ := h
  cases l with
  | acquire hasSG =>
    exact ⟨by simp [textStep, textAcquire]; omega, by simp [textStep, textAcquire]⟩
  | setStatus hid text =>
    cases hl : lookupA hid s.handles with
    | none => exact ⟨by simp [textStep, hl, h0], by simp [textStep, hl]; exact hg⟩
    | some hh =>
      by_cases hr : hh.released
      · exact ⟨by simp [textStep, hl, hr, h0], by simp [textStep, hl, hr]; exact hg⟩
      · constructor
        · simp only [textStep, hl, hr, Bool.false_eq_true, if_false]
          split
          · simp [textPushTick]
            split <;> simpa using h0
          · simpa using h0
        · simp only [textStep, hl, hr, Bool.false_eq_true, if_false]
          split
          · simp [textPushTick]
            split <;> simpa using hg
          · simpa using hg
  | release hid sgv =>
    cases hl : lookupA hid s.handles with
    | none => exact ⟨by simp [textStep, hl, h0], by simp [textStep, hl]; exact hg⟩
    | some hh =>
      by_cases hr : hh.released
      · exact ⟨by simp [textStep, hl, hr, h0], by simp [textStep, hl, hr]; exact hg⟩
      · simp only [textStep, hl, hr, Bool.false_eq_true, if_false]
        unfold textReleaseHandle textDestroy
        dsimp only
        constructor
        · split_ifs <;> simp <;> omega
        · by_cases hgt : s.graceTimer = true
          · have ha := hg hgt
            split_ifs <;> simp [hgt, ha] <;> omega
          · have hgf : s.graceTimer = false := by simpa using hgt
            split_ifs <;> simp [hgf] <;> omega
  | tick =>
    constructor
    · simp only [textStep]
      split
      · simp [textPushTick]; split <;> simpa using h0
      · simpa using h0
    · simp only [textStep]
      split
      · simp [textPushTick]; split <;> simpa using hg
      · simpa using hg
  | tickEnd =>
    constructor
    · simp only [textStep]; split <;> simpa using h0
    · simp only [textStep]; split <;> simpa using hg
  | graceFire =>
    constructor
    · simp only [textStep]; split <;> simpa using h0
    · simp only [textStep]; split <;> simp_all
  | clearEnd =>
    constructor
    · simp only [textStep, textDestroy]; split <;> simpa using h0
    · simp only [textStep, textDestroy]; split <;> simp_all

/-- Every phase-variant step preserves the invariant. -/
theorem phaseStep_inv (s : PhaseState) (l : PhaseLabel) (h : phaseInv s) :
    phaseInv (phaseStep s l).1 := by
  obtain ⟨h0, hg⟩ := h
  cases l with
  | acquire hasSG =>
    exact ⟨by simp [phaseStep, phaseAcquire]; omega, by simp [phaseStep, phaseAcquire]⟩
  | setStatus hid p =>
    cases hl : lookupA hid s.handles with
    | none => exact ⟨by simp [phaseStep, hl, h0], by simp [phaseStep, hl]; exact hg⟩
    | some hh =>
      by_cases hr : hh.released
      · exact ⟨by simp [phaseStep, hl, hr, h0], by simp [phaseStep, hl, hr]; exact hg⟩
      · constructor
        · simp only [phaseStep, hl, hr, Bool.false_eq_true, if_false]
          unfold phaseSetPhase phasePushOnce
          dsimp only
          split_ifs <;> simpa using h0
        · simp only [phaseStep, hl, hr, Bool.false_eq_true, if_false]
          unfold phaseSetPhase phasePushOnce
          dsimp only
          split_ifs <;> simpa using hg
  | pause hid =>
    cases hl : lookupA hid s.handles with
    | none => exact ⟨by simp [phaseStep, hl, h0], by simp [phaseStep, hl]; exact hg⟩
    | some hh =>
      by_cases hr : hh.released
      · exact ⟨by simp [phaseStep, hl, hr, h0], by simp [phaseStep, hl, hr]; exact hg⟩
      · exact ⟨by simp [phaseStep, hl, hr, h0], by simp [phaseStep, hl, hr]; exact hg⟩
  | release hid sgv =>
    cases hl : lookupA hid s.handles with
    | none => exact ⟨by simp [phaseStep, hl, h0], by simp [phaseStep, hl]; exact hg⟩
    | some hh =>
      by_cases hr : hh.released
      · exact ⟨by simp [phaseStep, hl, hr, h0], by simp [phaseStep, hl, hr]; exact hg⟩
      · simp only [phaseStep, hl, hr, Bool.false_eq_true, if_false]
        unfold phaseReleaseHandle phaseDestroy
        dsimp only
        constructor
        · split_ifs <;> simp <;> omega
        · by_cases hgt : s.graceTimer = true
          · have ha := hg hgt
            split_ifs <;> simp [hgt, ha] <;> omega
          · have hgf : s.graceTimer = false := by simpa using hgt
            split_ifs <;> simp [hgf] <;> omega
  | counterTick =>
    cases hp : s.phase with
    | none =>
      exact ⟨by simp only [phaseStep, hp]; split <;> simpa using h0,
        by simp only [phaseStep, hp]; split <;> simpa using hg⟩
    | some p =>
      constructor
      · simp only [phaseStep, hp]
        split
        · unfold phasePushOnce; split <;> simpa using h0
        · simpa using h0
      · simp only [phaseStep, hp]
        split
        · unfold phasePushOnce; split <;> simpa using hg
        · simpa using hg
  | pushEnd =>
    constructor
    · simp only [phaseStep]; split <;> simpa using h0
    · simp only [phaseStep]; split <;> simpa using hg
  | graceFire =>
    constructor
    · simp only [phaseStep, phaseDestroy]; split <;> simpa using h0
    · simp only [phaseStep, phaseDestroy]; split <;> simp_all
  | rePush =>
    cases hp : s.phase with
    | none => exact ⟨by simp [phaseStep, hp, h0], by simp [phaseStep, hp]; exact hg⟩
    | some p =>
      constructor
      · simp only [phaseStep, hp]
        unfold phasePushOnce; split <;> simpa using h0
      · simp only [phaseStep, hp]
        unfold phasePushOnce; split <;> simpa using hg

/-- The invariant along any text-variant trace. -/
theorem textRun_inv (s : TextState) (h : textInv s) :
    ∀ tr : List TextLabel, textInv (textRun s tr).1
  | [] => h
  | l :: ls => textRun_inv (textStep s l).1 (textStep_inv s l h) ls

/-- The invariant along any phase-variant trace. -/
theorem phaseRun_inv (s : PhaseState) (h : phaseInv s) :
    ∀ tr : List PhaseLabel, phaseInv (phaseRun s tr).1
  | [] => h
  | l :: ls => phaseRun_inv (phaseStep s l).1 (phaseStep_inv s l h) ls

/-- Exhaustive case analysis of the text-variant `releaseHandle`. -/
theorem textReleaseHandle_cases (s : TextState) (gr : Option Bool) :
    (0 < max 0 (s.activeHandles - 1) ∧
      textReleaseHandle s gr =
        ({ s with activeHandles := max 0 (s.activeHandles - 1) }, []))
    ∨ (max 0 (s.activeHandles - 1) = 0 ∧ s.pushTimer = false ∧
      textReleaseHandle s gr =
        (textDestroy { s with activeHandles := max 0 (s.activeHandles - 1) }, []))
    ∨ (max 0 (s.activeHandles - 1) = 0 ∧ s.pushTimer = true ∧ gr = some false ∧
      textReleaseHandle s gr =
        ({ s with activeHandles := max 0 (s.activeHandles - 1),
                  currentText := "", pendingClear := s.pendingClear + 1 },
         [.push ""]))
    ∨ (max 0 (s.activeHandles - 1) = 0 ∧ s.pushTimer = true ∧ gr ≠ some false ∧
      textReleaseHandle s gr =
        ({ s with activeHandles := max 0 (s.activeHandles - 1),
                  currentText := s.cfg.graceText, graceTimer := true }, [])) := by
  unfold textReleaseHandle
  dsimp only
  split_ifs with h1 h2 h3
  · exact .inl ⟨h1, rfl⟩
  · exact .inr (.inl ⟨by omega, by simpa using h2, rfl⟩)
  · exact .inr (.inr (.inl ⟨by omega, by simpa using h2, h3, rfl⟩))
  · exact .inr (.inr (.inr ⟨by omega, by simpa using h2, h3, rfl⟩))

/-- Exhaustive case analysis of the phase-variant `releaseHandle`. -/
theorem phaseReleaseHandle_cases (s : PhaseState) (gr : Option Bool) :
    (0 < max 0 (s.activeHandles - 1) ∧
      phaseReleaseHandle s gr =
        ({ s with activeHandles := max 0 (s.activeHandles - 1) }, []))
    ∨ (max 0 (s.activeHandles - 1) = 0 ∧ s.phase = none ∧
      phaseReleaseHandle s gr =
        (phaseDestroy { s with activeHandles := max 0 (s.activeHandles - 1) }, []))
    ∨ (max 0 (s.activeHandles - 1) = 0 ∧ s.phase ≠ none ∧ gr = some false ∧
      phaseReleaseHandle s gr =
        (phaseDestroy { s with activeHandles := max 0 (s.activeHandles - 1),
                               counterTimer := false }, []))
    ∨ (max 0 (s.activeHandles - 1) = 0 ∧ s.phase ≠ none ∧ gr ≠ some false ∧
      phaseReleaseHandle s gr =
        ({ s with activeHandles := max 0 (s.activeHandles - 1),
                  counterTimer := false, graceTimer := true }, [])) := by
  unfold phaseReleaseHandle
  dsimp only
  split_ifs with h1 h2 h3
  · exact .inl ⟨h1, rfl⟩
  · exact .inr (.inl ⟨by omega, h2, rfl⟩)
  · exact .inr (.inr (.inl ⟨by omega, h2, h3, rfl⟩))
  · exact .inr (.inr (.inr ⟨by omega, h2, h3, rfl⟩))

/-- A `release` step on a live handle is `releaseHandle` on the state with
that handle marked released (text variant). -/
theorem textStep_release_found (s : TextState) (hid : Nat) (sgv : Bool)
    (h : MgrHandle) (hl : lookupA hid s.handles = some h)
    (hr : h.released = false) :
    textStep s (.release hid sgv) =
      textReleaseHandle { s with handles := setReleased hid s.handles }
        (if h.hasSG = true then some sgv else none) := by
  simp [textStep, hl, hr]

/-- A `release` step on a live handle is `releaseHandle` on the state with
that handle marked released (phase variant). -/
theorem phaseStep_release_found (s : PhaseState) (hid : Nat) (sgv : Bool)
    (h : MgrHandle) (hl : lookupA hid s.handles = some h)
    (hr : h.released = false) :
    phaseStep s (.release hid sgv) =
      phaseReleaseHandle { s with handles := setReleased hid s.handles }
        (if h.hasSG = true then some sgv else none) := by
  simp [phaseStep, hl, hr]

/-- A "stop decision" of the text-variant manager: a step at which
`activeHandles` reaches 0 and the grace resolution is "stop" — a live
handle releases with the push loop never started or with `shouldGrace()`
returning `false`, or the grace timer fires uncancelled (at which point,
along any trace of a fresh manager, `activeHandles` is 0). -/
def textStopDecision (s : TextState) (l : TextLabel) : Prop :=
  (∃ hid sgv h, l = .release hid sgv ∧ lookupA hid s.handles = some h ∧
    h.released = false ∧ max 0 (s.activeHandles - 1) = 0 ∧
    (s.pushTimer = false ∨ (h.hasSG = true ∧ sgv = false)))
  ∨ (l = .graceFire ∧ s.graceTimer = true ∧ s.activeHandles = 0)

/-- A "stop decision" of the phase-variant manager. -/
def phaseStopDecision (s : PhaseState) (l : PhaseLabel) : Prop :=
  (∃ hid sgv h, l = .release hid sgv ∧ lookupA hid s.handles = some h ∧
    h.released = false ∧ max 0 (s.activeHandles - 1) = 0 ∧
    (s.phase = none ∨ (h.hasSG = true ∧ sgv = false)))
  ∨ (l = .graceFire ∧ s.graceTimer = true)

/-- A step that increases the count of in-flight clear pushes is a stop
decision. -/
theorem textStep_pendingClear_incr (s : TextState) (l : TextLabel)
    (hinv : textInv s)
    (h : s.pendingClear < (textStep s l).1.pendingClear) :
    textStopDecision s l := by
  cases l with
  | acquire hasSG => simp [textStep, textAcquire] at h
  | setStatus hid text =>
    exfalso
    cases hl : lookupA hid s.handles with
    | none => simp [textStep, hl] at h
    | some hh =>
      by_cases hr : hh.released
      · simp [textStep, hl, hr] at h
      · simp only [textStep, hl, hr, Bool.false_eq_true, if_false] at h
        split at h
        · unfold textPushTick at h
          split at h <;> simp at h
        · simp at h
  | release hid sgv =>
    cases hl : lookupA hid s.handles with
    | none => simp [textStep, hl] at h
    | some hh =>
      by_cases hr : hh.released
      · simp [textStep, hl, hr] at h
      · have hr' : hh.released = false := by simpa using hr
        rw [textStep_release_found s hid sgv hh hl hr'] at h
        rcases textReleaseHandle_cases
            { s with handles := setReleased hid s.handles }
            (if hh.hasSG = true then some sgv else none) with
          ⟨_, he⟩ | ⟨_, _, he⟩ | ⟨hm, hp, hgr, he⟩ | ⟨_, _, _, he⟩
        · rw [he] at h; simp at h
        · rw [he] at h; simp [textDestroy] at h
        · left
          refine ⟨hid, sgv, hh, rfl, hl, hr', by simpa using hm, .inr ?_⟩
          by_cases hsg : hh.hasSG = true
          · rw [if_pos hsg] at hgr
            simp at hgr
            exact ⟨hsg, hgr⟩
          · rw [if_neg hsg] at hgr
            simp at hgr
        · rw [he] at h; simp at h
  | tick =>
    exfalso
    simp only [textStep] at h
    split at h
    · unfold textPushTick at h
      split at h <;> simp at h
    · simp at h
  | tickEnd =>
    exfalso
    simp only [textStep] at h
    split at h <;> simp at h
  | graceFire =>
    by_cases hg : s.graceTimer = true
    · exact .inr ⟨rfl, hg, hinv.2 hg⟩
    · exfalso
      simp only [textStep] at h
      rw [if_neg hg] at h
      simp at h
  | clearEnd =>
    exfalso
    simp only [textStep, textDestroy] at h
    split at h <;> simp at h <;> omega

/-- A step that removes the text-variant manager from the registry is
either a stop decision (immediate destroy) or the settling of an in-flight
clear push. -/
theorem textStep_removes (s : TextState) (l : TextLabel)
    (hreg : s.inRegistry = true)
    (hrem : (textStep s l).1.inRegistry = false) :
    textStopDecision s l ∨ (l = .clearEnd ∧ 0 < s.pendingClear) := by
  cases l with
  | acquire hasSG => simp [textStep, textAcquire, hreg] at hrem
  | setStatus hid text =>
    exfalso
    cases hl : lookupA hid s.handles with
    | none => simp [textStep, hl, hreg] at hrem
    | some hh =>
      by_cases hr : hh.released
      · simp [textStep, hl, hr, hreg] at hrem
      · simp only [textStep, hl, hr, Bool.false_eq_true, if_false] at hrem
        split at hrem
        · unfold textPushTick at hrem
          split at hrem <;> simp [hreg] at hrem
        · simp [hreg] at hrem
  | release hid sgv =>
    cases hl : lookupA hid s.handles with
    | none => simp [textStep, hl, hreg] at hrem
    | some hh =>
      by_cases hr : hh.released
      · simp [textStep, hl, hr, hreg] at hrem
      · have hr' : hh.released = false := by simpa using hr
        rw [textStep_release_found s hid sgv hh hl hr'] at hrem
        rcases textReleaseHandle_cases
            { s with handles := setReleased hid s.handles }
            (if hh.hasSG = true then some sgv else none) with
          ⟨_, he⟩ | ⟨hm, hp, he⟩ | ⟨_, _, _, he⟩ | ⟨_, _, _, he⟩
        · rw [he] at hrem; simp [hreg] at hrem
        · exact .inl (.inl ⟨hid, sgv, hh, rfl, hl, hr',
            by simpa using hm, .inl (by simpa using hp)⟩)
        · rw [he] at hrem; simp [hreg] at hrem
        · rw [he] at hrem; simp [hreg] at hrem
  | tick =>
    exfalso
    simp only [textStep] at hrem
    split at hrem
    · unfold textPushTick at hrem
      split at hrem <;> simp [hreg] at hrem
    · simp [hreg] at hrem
  | tickEnd =>
    exfalso
    simp only [textStep] at hrem
    split at hrem <;> simp [hreg] at hrem
  | graceFire =>
    exfalso
    simp only [textStep] at hrem
    split at hrem <;> simp [hreg] at hrem
  | clearEnd =>
    simp only [textStep, textDestroy] at hrem
    split at hrem
    · next hpc => exact .inr ⟨rfl, hpc⟩
    · simp [hreg] at hrem

/-- Along any text-variant trace started with no clear push in flight, an
in-flight clear push points back to the stop decision that launched it. -/
theorem textRun_pendingClear_launch :
    ∀ (tr : List TextLabel) (s : TextState), textInv s → s.pendingClear = 0 →
      0 < (textRun s tr).1.pendingClear →
      ∃ a l b, tr = a ++ l :: b ∧ textStopDecision (textRun s a).1 l
  | [], s => by
    intro _ hz h
    simp [textRun] at h
    omega
  | l :: ls, s => by
    intro hinv hz h
    by_cases hstep : (textStep s l).1.pendingClear = 0
    · obtain ⟨a, l', b, hab, hd⟩ :=
        textRun_pendingClear_launch ls (textStep s l).1
          (textStep_inv s l hinv) hstep h
      exact ⟨l :: a, l', b, by rw [hab]; rfl, hd⟩
    · have hlt : s.pendingClear < (textStep s l).1.pendingClear := by omega
      exact ⟨[], l, ls, rfl, textStep_pendingClear_incr s l hinv hlt⟩

/-- A phase-variant step removes the manager from the registry exactly
when it is a stop decision. -/
theorem phaseStep_removes_iff (s : PhaseState) (l : PhaseLabel)
    (hreg : s.inRegistry = true) :
    (phaseStep s l).1.inRegistry = false ↔ phaseStopDecision s l := by
  constructor
  · intro hrem
    cases l with
    | acquire hasSG => simp [phaseStep, phaseAcquire, hreg] at hrem
    | setStatus hid p =>
      exfalso
      cases hl : lookupA hid s.handles with
      | none => simp [phaseStep, hl, hreg] at hrem
      | some hh =>
        by_cases hr : hh.released
        · simp [phaseStep, hl, hr, hreg] at hrem
        · simp only [phaseStep, hl, hr, Bool.false_eq_true, if_false] at hrem
          unfold phaseSetPhase phasePushOnce at hrem
          dsimp only at hrem
          split_ifs at hrem <;> simp [hreg] at hrem
    | pause hid =>
      exfalso
      cases hl : lookupA hid s.handles with
      | none => simp [phaseStep, hl, hreg] at hrem
      | some hh =>
        by_cases hr : hh.released <;> simp [phaseStep, hl, hr, hreg] at hrem
    | release hid sgv =>
      cases hl : lookupA hid s.handles with
      | none => simp [phaseStep, hl, hreg] at hrem
      | some hh =>
        by_cases hr : hh.released
        · simp [phaseStep, hl, hr, hreg] at hrem
        · have hr' : hh.released = false := by simpa using hr
          rw [phaseStep_release_found s hid sgv hh hl hr'] at hrem
          rcases phaseReleaseHandle_cases
              { s with handles := setReleased hid s.handles }
              (if hh.hasSG = true then some sgv else none) with
            ⟨_, he⟩ | ⟨hm, hp, he⟩ | ⟨hm, hp, hgr, he⟩ | ⟨_, _, _, he⟩
          · rw [he] at hrem; simp [hreg] at hrem
          · exact .inl ⟨hid, sgv, hh, rfl, hl, hr',
              by simpa using hm, .inl (by simpa using hp)⟩
          · left
            refine ⟨hid, sgv, hh, rfl, hl, hr', by simpa using hm, .inr ?_⟩
            by_cases hsg : hh.hasSG = true
            · rw [if_pos hsg] at hgr
              simp at hgr
              exact ⟨hsg, hgr⟩
            · rw [if_neg hsg] at hgr
              simp at hgr
          · rw [he] at hrem; simp [hreg] at hrem
    | counterTick =>
      exfalso
      cases hp : s.phase with
      | none =>
        simp only [phaseStep, hp] at hrem
        split at hrem <;> simp [hreg] at hrem
      | some p =>
        simp only [phaseStep, hp] at hrem
        split at hrem
        · unfold phasePushOnce at hrem
          split at hrem <;> simp [hreg] at hrem
        · simp [hreg] at hrem
    | pushEnd =>
      exfalso
      simp only [phaseStep] at hrem
      split at hrem <;> simp [hreg] at hrem
    | graceFire =>
      simp only [phaseStep, phaseDestroy] at hrem
      split at hrem
      · next hg => exact .inr ⟨rfl, hg⟩
      · simp [hreg] at hrem
    | rePush =>
      exfalso
      cases hp : s.phase with
      | none => simp [phaseStep, hp, hreg] at hrem
      | some p =>
        simp only [phaseStep, hp] at hrem
        unfold phasePushOnce at hrem
        split at hrem <;> simp [hreg] at hrem
  · intro hd
    rcases hd with ⟨hid, sgv, hh, hleq, hl, hr, hm, hstop⟩ | ⟨hleq, hg⟩
    · subst hleq
      rw [phaseStep_release_found s hid sgv hh hl hr]
      rcases phaseReleaseHandle_cases
          { s with handles := setReleased hid s.handles }
          (if hh.hasSG = true then some sgv else none) with
        ⟨hgt, he⟩ | ⟨_, _, he⟩ | ⟨_, _, _, he⟩ | ⟨hm', hp', hgr', he⟩
      · exfalso
        have hgt' : 0 < max 0 (s.activeHandles - 1) := hgt
        omega
      · rw [he]; rfl
      · rw [he]; rfl
      · exfalso
        rcases hstop with hp | ⟨hsg, hsgv⟩
        · exact hp' (by simpa using hp)
        · subst hsgv
          rw [if_pos hsg] at hgr'
          exact hgr' rfl
    · subst hleq
      simp [phaseStep, hg, phaseDestroy]

/-- C4: for every acquire/release interleaving from a fresh manager,
`activeHandles` never goes negative (both variants); a removal of the
manager's registry entry always traces back to a step at which
`activeHandles` reached 0 with the grace decision resolving to stop
(text variant: trace-level, because the `shouldGrace()=false` and
grace-expiry paths destroy only when their clear push settles; phase
variant: a step removes the entry exactly when it is such a stop
decision); an armed grace timer always means `activeHandles = 0`; and the
stop-decision steps do destroy: a settling clear push always removes the
text-variant entry, and a last-handle release with `shouldGrace()=false`
and the loop running launches exactly one clear push of `""`. -/
theorem activeHandles_destroy_spec :
    (∀ (cfg : TextCfg) (tr : List TextLabel),
        0 ≤ (textRun (textInit cfg) tr).1.activeHandles)
    ∧ (∀ (cfg : PhaseCfg) (tr : List PhaseLabel),
        0 ≤ (phaseRun (phaseInit cfg) tr).1.activeHandles)
    ∧ (∀ (cfg : TextCfg) (tr1 : List TextLabel) (l : TextLabel),
        (textRun (textInit cfg) tr1).1.inRegistry = true →
        (textStep (textRun (textInit cfg) tr1).1 l).1.inRegistry = false →
        ∃ a l' b, tr1 ++ [l] = a ++ l' :: b ∧
          textStopDecision (textRun (textInit cfg) a).1 l')
    ∧ (∀ (s : PhaseState) (l : PhaseLabel), s.inRegistry = true →
        ((phaseStep s l).1.inRegistry = false ↔ phaseStopDecision s l))
    ∧ (∀ (cfg : TextCfg) (tr : List TextLabel),
        (textRun (textInit cfg) tr).1.graceTimer = true →
        (textRun (textInit cfg) tr).1.activeHandles = 0)
    ∧ (∀ (cfg : PhaseCfg) (tr : List PhaseLabel),
        (phaseRun (phaseInit cfg) tr).1.graceTimer = true →
        (phaseRun (phaseInit cfg) tr).1.activeHandles = 0)
    ∧ (∀ s : TextState, 0 < s.pendingClear →
        (textStep s .clearEnd).1.inRegistry = false)
    ∧ (∀ (s : TextState) (hid : Nat) (h : MgrHandle),
        lookupA hid s.handles = some h → h.released = false →
        max 0 (s.activeHandles - 1) = 0 → s.pushTimer = true →
        h.hasSG = true →
        (textStep s (.release hid false)).1.pendingClear = s.pendingClear + 1
        ∧ (textStep s (.release hid false)).2 = [.push ""]) := by
  refine ⟨?_, ?_, ?_, phaseStep_removes_iff, ?_, ?_, ?_, ?_⟩
  · intro cfg tr
    exact (textRun_inv (textInit cfg) ⟨by simp [textInit], by simp [textInit]⟩ tr).1
  · intro cfg tr
    exact (phaseRun_inv (phaseInit cfg) ⟨by simp [phaseInit], by simp [phaseInit]⟩ tr).1
  · intro cfg tr1 l hreg hrem
    rcases textStep_removes _ l hreg hrem with hd | ⟨_, hpc⟩
    · exact ⟨tr1, l, [], rfl, hd⟩
    · obtain ⟨a, l', b, hab, hd⟩ :=
        textRun_pendingClear_launch tr1 (textInit cfg)
          ⟨by simp [textInit], by simp [textInit]⟩ (by simp [textInit]) hpc
      exact ⟨a, l', b ++ [l], by rw [hab]; simp, hd⟩
  · intro cfg tr hgt
    exact (textRun_inv (textInit cfg)
      ⟨by simp [textInit], by simp [textInit]⟩ tr).2 hgt
  · intro cfg tr hgt
    exact (phaseRun_inv (phaseInit cfg)
      ⟨by simp [phaseInit], by simp [phaseInit]⟩ tr).2 hgt
  · intro s hpc
    simp [textStep, textDestroy, hpc]
  · intro s hid h hl hr hm hp hsg
    rw [textStep_release_found s hid false h hl hr]
    rcases textReleaseHandle_cases
        { s with handles := setReleased hid s.handles }
        (if h.hasSG = true then some false else none) with
      ⟨hgt, he⟩ | ⟨_, hpt, he⟩ | ⟨_, _, _, he⟩ | ⟨_, _, hgr, he⟩
    · exfalso
      have hgt' : 0 < max 0 (s.activeHandles - 1) := hgt
      omega
    · exfalso
      have hpt' : s.pushTimer = false := hpt
      rw [hp] at hpt'
      exact absurd hpt' (by decide)
    · rw [he]
      exact ⟨rfl, rfl⟩
    · exfalso
      rw [if_pos hsg] at hgr
      exact hgr rfl

/-! ## C6 — flicker-free handoff inside a grace window -/

/-- State of a text-variant manager inside (or just out of) a grace
window: the grace text is displayed, the push loop still runs, no clear
push is in flight, and the grace timer is in the given position. -/
def graceWindowInv (c : TextCfg) (reg gt : Bool) (s : TextState) : Prop :=
  s.cfg = c ∧ s.currentText = c.graceText ∧ s.pendingClear = 0 ∧
  s.pushTimer = true ∧ s.graceTimer = gt ∧ s.inRegistry = reg

/-- A release that arms the grace timer (it was not armed before, and no
clear push was in flight) pushes nothing and enters the grace window. -/
theorem textRelease_graceEntry (s0 : TextState) (hid : Nat) (sgv : Bool)
    (hg0 : s0.graceTimer = false) (hpc : s0.pendingClear = 0)
    (hg1 : (textStep s0 (.release hid sgv)).1.graceTimer = true) :
    (textStep s0 (.release hid sgv)).2 = []
    ∧ graceWindowInv s0.cfg s0.inRegistry true
        (textStep s0 (.release hid sgv)).1 := by
  cases hl : lookupA hid s0.handles with
  | none =>
    exfalso
    simp only [textStep, hl] at hg1
    rw [hg0] at hg1
    exact absurd hg1 (by decide)
  | some h =>
    by_cases hr : h.released
    · exfalso
      simp only [textStep, hl, hr, if_true] at hg1
      rw [hg0] at hg1
      exact absurd hg1 (by decide)
    · have hr' : h.released = false := by simpa using hr
      rw [textStep_release_found s0 hid sgv h hl hr'] at hg1 ⊢
      rcases textReleaseHandle_cases
          { s0 with handles := setReleased hid s0.handles }
          (if h.hasSG = true then some sgv else none) with
        ⟨_, he⟩ | ⟨_, _, he⟩ | ⟨_, _, _, he⟩ | ⟨_, hpt, _, he⟩
      · exfalso
        rw [he] at hg1
        have : s0.graceTimer = true := hg1
        rw [hg0] at this
        exact absurd this (by decide)
      · exfalso
        rw [he] at hg1
        exact absurd (show false = true from hg1) (by decide)
      · exfalso
        rw [he] at hg1
        have : s0.graceTimer = true := hg1
        rw [hg0] at this
        exact absurd this (by decide)
      · rw [he]
        exact ⟨rfl, rfl, rfl, hpc, hpt, rfl, rfl⟩

/-- Inside the window, `tick` and `tickEnd` preserve the window state and
push only the grace text. -/
theorem graceWindow_tick_step (c : TextCfg) (reg gt : Bool) (s : TextState)
    (hw : graceWindowInv c reg gt s) (l : TextLabel)
    (hl : l = TextLabel.tick ∨ l = TextLabel.tickEnd) :
    graceWindowInv c reg gt (textStep s l).1
    ∧ ∀ o ∈ (textStep s l).2, o = TOut.push c.graceText := by
  obtain ⟨hc, ht, hpc, hpt, hgt, hrg⟩ := hw
  rcases hl with rfl | rfl
  · have hstep : textStep s .tick = textPushTick s := by simp [textStep, hpt]
    rw [hstep]
    unfold textPushTick
    split
    · exact ⟨⟨hc, ht, hpc, hpt, hgt, hrg⟩, by simp⟩
    · refine ⟨⟨hc, ht, hpc, hpt, hgt, hrg⟩, ?_⟩
      intro o ho
      simp at ho
      simp [ho, ht]
  · constructor
    · simp only [textStep]
      split
      · exact ⟨hc, ht, hpc, hpt, hgt, hrg⟩
      · exact ⟨hc, ht, hpc, hpt, hgt, hrg⟩
    · simp only [textStep]
      split <;> simp

/-- After the grace timer is cancelled, `graceFire` and `clearEnd` are
no-ops as well (nothing is pending), so the whole benign label set
preserves the window state and pushes only the grace text. -/
theorem graceWindow_benign_step (c : TextCfg) (reg : Bool) (s : TextState)
    (hw : graceWindowInv c reg false s) (l : TextLabel)
    (hl : l = TextLabel.tick ∨ l = TextLabel.tickEnd ∨
      l = TextLabel.graceFire ∨ l = TextLabel.clearEnd) :
    graceWindowInv c reg false (textStep s l).1
    ∧ ∀ o ∈ (textStep s l).2, o = TOut.push c.graceText := by
  rcases hl with rfl | rfl | rfl | rfl
  · exact graceWindow_tick_step c reg false s hw _ (.inl rfl)
  · exact graceWindow_tick_step c reg false s hw _ (.inr rfl)
  · have hstep : textStep s .graceFire = (s, []) := by
      simp [textStep, hw.2.2.2.2.1]
    rw [hstep]
    exact ⟨hw, by simp⟩
  · have hstep : textStep s .clearEnd = (s, []) := by
      simp [textStep, hw.2.2.1]
    rw [hstep]
    exact ⟨hw, by simp⟩

/-- The window state along a trace of `tick`/`tickEnd` labels. -/
theorem graceWindow_tick_run (c : TextCfg) (reg gt : Bool) :
    ∀ (w : List TextLabel) (s : TextState), graceWindowInv c reg gt s →
      (∀ l ∈ w, l = TextLabel.tick ∨ l = TextLabel.tickEnd) →
      graceWindowInv c reg gt (textRun s w).1
      ∧ ∀ o ∈ (textRun s w).2, o = TOut.push c.graceText
  | [], s => fun hw _ => ⟨hw, by simp [textRun]⟩
  | l :: ls, s => fun hw hall => by
    obtain ⟨hs, ho⟩ := graceWindow_tick_step c reg gt s hw l (hall l (by simp))
    obtain ⟨hs', ho'⟩ := graceWindow_tick_run c reg gt ls (textStep s l).1 hs
      (fun x hx => hall x (by simp [hx]))
    refine ⟨hs', ?_⟩
    intro o hmem
    have hmem' : o ∈ (textStep s l).2 ++ (textRun (textStep s l).1 ls).2 := hmem
    rcases List.mem_append.mp hmem' with h1 | h2
    · exact ho o h1
    · exact ho' o h2

/-- The window state along a trace of benign labels, after the acquire. -/
theorem graceWindow_benign_run (c : TextCfg) (reg : Bool) :
    ∀ (w : List TextLabel) (s : TextState), graceWindowInv c reg false s →
      (∀ l ∈ w, l = TextLabel.tick ∨ l = TextLabel.tickEnd ∨
        l = TextLabel.graceFire ∨ l = TextLabel.clearEnd) →
      graceWindowInv c reg false (textRun s w).1
      ∧ ∀ o ∈ (textRun s w).2, o = TOut.push c.graceText
  | [], s => fun hw _ => ⟨hw, by simp [textRun]⟩
  | l :: ls, s => fun hw hall => by
    obtain ⟨hs, ho⟩ := graceWindow_benign_step c reg s hw l (hall l (by simp))
    obtain ⟨hs', ho'⟩ := graceWindow_benign_run c reg ls (textStep s l).1 hs
      (fun x hx => hall x (by simp [hx]))
    refine ⟨hs', ?_⟩
    intro o hmem
    have hmem' : o ∈ (textStep s l).2 ++ (textRun (textStep s l).1 ls).2 := hmem
    rcases List.mem_append.mp hmem' with h1 | h2
    · exact ho o h1
    · exact ho' o h2

/-- Acquiring inside the grace window cancels the pending destroy (the
grace timer) and emits nothing; everything else of the window state is
kept. -/
theorem graceWindow_acquire (c : TextCfg) (reg : Bool) (s : TextState)
    (hw : graceWindowInv c reg true s) (b : Bool) :
    (textStep s (.acquire b)).2 = []
    ∧ graceWindowInv c reg false (textStep s (.acquire b)).1 := by
  obtain ⟨hc, ht, hpc, hpt, _, hrg⟩ := hw
  exact ⟨rfl, hc, ht, hpc, hpt, rfl, hrg⟩

/-- While the push loop is running, `setStatus` never pushes immediately
and never touches the registry membership. -/
theorem textStep_setStatus_quiet (s : TextState) (hid : Nat) (t : String)
    (hpt : s.pushTimer = true) :
    (textStep s (.setStatus hid t)).2 = []
    ∧ (textStep s (.setStatus hid t)).1.inRegistry = s.inRegistry := by
  cases hl : lookupA hid s.handles with
  | none => simp [textStep, hl]
  | some h =>
    by_cases hr : h.released
    · simp [textStep, hl, hr]
    · simp [textStep, hl, hr, hpt]

/-- One step unfolding of `textRun`. -/
theorem textRun_cons (s : TextState) (l : TextLabel) (ls : List TextLabel) :
    textRun s (l :: ls) =
      ((textRun (textStep s l).1 ls).1,
        (textStep s l).2 ++ (textRun (textStep s l).1 ls).2) := rfl

/-- `textRun` on the empty trace. -/
theorem textRun_nil (s : TextState) : textRun s [] = (s, []) := rfl

/-- C6: a handle acquired while the grace timer is pending cancels the
pending destroy, and between the release that started the grace window and
the new holder's `setStatus` no empty-string push is observable: every
push in the window carries the (non-empty) grace text, the acquire and the
`setStatus` push nothing, and the manager stays in the registry
throughout.  `w1` are the scheduler events before the acquire (ticks and
push completions; the grace timer still pending means it has not fired),
`w2` those after it (where a grace fire or clear completion would be a
no-op). -/
theorem grace_handoff_flicker_free (s0 : TextState) (hid hid2 : Nat)
    (sgv hasSG : Bool) (t : String) (w1 w2 : List TextLabel)
    (hgt : s0.cfg.graceText ≠ "")
    (hg0 : s0.graceTimer = false) (hpc : s0.pendingClear = 0)
    (hg1 : (textStep s0 (.release hid sgv)).1.graceTimer = true)
    (hw1 : ∀ l ∈ w1, l = TextLabel.tick ∨ l = TextLabel.tickEnd)
    (hw2 : ∀ l ∈ w2, l = TextLabel.tick ∨ l = TextLabel.tickEnd ∨
      l = TextLabel.graceFire ∨ l = TextLabel.clearEnd) :
    TOut.push "" ∉ (textRun s0 ([TextLabel.release hid sgv] ++ w1
      ++ [TextLabel.acquire hasSG] ++ w2 ++ [TextLabel.setStatus hid2 t])).2
    ∧ (textRun s0 ([TextLabel.release hid sgv] ++ w1
        ++ [TextLabel.acquire hasSG])).1.graceTimer = false
    ∧ (textRun s0 ([TextLabel.release hid sgv] ++ w1
        ++ [TextLabel.acquire hasSG] ++ w2
        ++ [TextLabel.setStatus hid2 t])).1.inRegistry = s0.inRegistry := by
  obtain ⟨ho0, hwin⟩ := textRelease_graceEntry s0 hid sgv hg0 hpc hg1
  have h1 := graceWindow_tick_run s0.cfg s0.inRegistry true w1 _ hwin hw1
  have h2 := graceWindow_acquire s0.cfg s0.inRegistry _ h1.1 hasSG
  have h3 := graceWindow_benign_run s0.cfg s0.inRegistry w2 _ h2.2 hw2
  have h4 := textStep_setStatus_quiet _ hid2 t h3.1.2.2.2.1
  have elist : [TextLabel.release hid sgv] ++ w1 ++ [TextLabel.acquire hasSG]
      ++ w2 ++ [TextLabel.setStatus hid2 t]
      = TextLabel.release hid sgv :: (w1 ++ (TextLabel.acquire hasSG ::
          (w2 ++ [TextLabel.setStatus hid2 t]))) := by simp
  have elist2 : [TextLabel.release hid sgv] ++ w1 ++ [TextLabel.acquire hasSG]
      = TextLabel.release hid sgv :: (w1 ++ [TextLabel.acquire hasSG]) := by simp
  refine ⟨?_, ?_, ?_⟩
  · intro hmem
    rw [elist] at hmem
    simp only [textRun_cons, textRun_append, textRun_nil] at hmem
    rw [ho0, h2.1, h4.1] at hmem
    simp only [List.mem_append, List.not_mem_nil, false_or, or_false] at hmem
    rcases hmem with h | h
    · have := h1.2 _ h
      simp at this
      exact hgt this.symm
    · have := h3.2 _ h
      simp at this
      exact hgt this.symm
  · rw [elist2]
    simp only [textRun_cons, textRun_append, textRun_nil]
    exact h2.2.2.2.2.2.1
  · rw [elist]
    simp only [textRun_cons, textRun_append, textRun_nil]
    rw [h4.2]
    exact h3.1.2.2.2.2.2

/-- Witness for C6 at a concrete scenario: `h1` sets "x" and releases with
grace; a tick fires, `h2` acquires within the window, the tick settles and
another fires, then `h2` sets "y" — no empty push is observed. -/
theorem grace_handoff_flicker_free_witness :
    TOut.push "" ∉ (textRun (textRun (textInit ⟨100, 5000, "is thinking...", 0, none⟩)
        [.acquire true, .setStatus 0 "x"]).1
      ([TextLabel.release 0 true] ++ [TextLabel.tick] ++ [TextLabel.acquire true]
        ++ [TextLabel.tickEnd, TextLabel.tick] ++ [TextLabel.setStatus 1 "y"])).2 := by
  exact (grace_handoff_flicker_free
    (textRun (textInit ⟨100, 5000, "is thinking...", 0, none⟩)
      [.acquire true, .setStatus 0 "x"]).1
    0 1 true true "y" [.tick] [.tickEnd, .tick]
    (by decide) (by decide) (by decide) (by decide) (by decide) (by decide)).1

/-! ## C2 — `waitForEmbeddedPiRunEnd` waiter protocol -/

/-- `Map.set` then `get` at the same key. -/
theorem lookupA_setA_self [DecidableEq α] (k : α) (v : β)
    (l : List (α × β)) : lookupA k (setA k v l) = some v := by
  induction l with
  | nil => simp [setA, lookupA]
  | cons p rest ih =>
    rcases p with ⟨k', v'⟩
    by_cases hk : k' = k
    · subst hk
      simp [setA, lookupA]
    · simp [setA, lookupA, hk, ih]

/-- `Map.set` leaves other keys alone. -/
theorem lookupA_setA_ne [DecidableEq α] (k k' : α) (hne : k' ≠ k) (v : β)
    (l : List (α × β)) : lookupA k' (setA k v l) = lookupA k' l := by
  induction l with
  | nil => simp [setA, lookupA, Ne.symm hne]
  | cons p rest ih =>
    rcases p with ⟨k'', v'⟩
    by_cases hk : k'' = k
    · subst hk
      simp [setA, lookupA, Ne.symm hne]
    · simp [setA, lookupA, hk, ih]

/-- `Map.delete` leaves other keys alone. -/
theorem lookupA_eraseA_ne [DecidableEq α] (k k' : α) (hne : k' ≠ k)
    (l : List (α × β)) : lookupA k' (eraseA k l) = lookupA k' l := by
  induction l with
  | nil => simp [eraseA]
  | cons p rest ih =>
    rcases p with ⟨k'', v'⟩
    by_cases hk : k'' = k
    · subst hk
      simp [eraseA, lookupA, Ne.symm hne]
    · simp [eraseA, lookupA, hk, ih]

/-- A key absent from the key list looks up to nothing. -/
theorem lookupA_none_of_not_mem [DecidableEq α] (k : α)
    (l : List (α × β)) (h : k ∉ l.map Prod.fst) : lookupA k l = none := by
  induction l with
  | nil => rfl
  | cons p rest ih =>
    rcases p with ⟨k', v'⟩
    have h1 : k' ≠ k := by
      intro he
      exact h (by simp [he])
    have h2 : k ∉ rest.map Prod.fst := by
      intro hm
      exact h (by simp [hm])
    simp [lookupA, h1, ih h2]

/-- `Map.delete` at a key of a duplicate-free map removes it entirely. -/
theorem lookupA_eraseA_self [DecidableEq α] (k : α)
    (l : List (α × β)) (h : (l.map Prod.fst).Nodup) :
    lookupA k (eraseA k l) = none := by
  induction l with
  | nil => rfl
  | cons p rest ih =>
    rcases p with ⟨k', v'⟩
    simp only [List.map_cons, List.nodup_cons] at h
    by_cases hk : k' = k
    · subst hk
      simp only [eraseA, if_pos rfl]
      exact lookupA_none_of_not_mem k' rest h.1
    · simp [eraseA, lookupA, hk, ih h.2]

/-- The key list of `Map.set`: unchanged when the key exists, appended
otherwise. -/
theorem keys_setA [DecidableEq α] (k : α) (v : β) (l : List (α × β)) :
    (setA k v l).map Prod.fst =
      if k ∈ l.map Prod.fst then l.map Prod.fst
      else l.map Prod.fst ++ [k] := by
  induction l with
  | nil => simp [setA]
  | cons p rest ih =>
    rcases p with ⟨k', v'⟩
    by_cases hk : k' = k
    · subst hk
      simp [setA]
    · have hor : (k ∈ (k' :: rest.map Prod.fst)) ↔ k ∈ rest.map Prod.fst := by
        simp [Ne.symm hk]
      simp only [setA, if_neg hk, List.map_cons]
      rw [ih]
      by_cases hmem : k ∈ rest.map Prod.fst
      · simp [hmem, hor]
      · simp [hmem, hor]

/-- `Map.set` keeps keys duplicate-free. -/
theorem keys_setA_nodup [DecidableEq α] (k : α) (v : β)
    (l : List (α × β)) (h : (l.map Prod.fst).Nodup) :
    ((setA k v l).map Prod.fst).Nodup := by
  rw [keys_setA]
  by_cases hmem : k ∈ l.map Prod.fst
  · simpa [hmem] using h
  · simp [hmem, List.nodup_append, h]

/-- The key list of `Map.delete` is a sublist of the original. -/
theorem keys_eraseA_sublist [DecidableEq α] (k : α) (l : List (α × β)) :
    List.Sublist ((eraseA k l).map Prod.fst) (l.map Prod.fst) := by
  induction l with
  | nil => simp [eraseA]
  | cons p rest ih =>
    rcases p with ⟨k', v'⟩
    by_cases hk : k' = k
    · subst hk
      simp only [eraseA, if_pos rfl, List.map_cons]
      exact List.sublist_cons_self _ _
    · simp only [eraseA, if_neg hk, List.map_cons]
      exact ih.cons₂ _

/-- `Map.delete` keeps keys duplicate-free. -/
theorem keys_eraseA_nodup [DecidableEq α] (k : α)
    (l : List (α × β)) (h : (l.map Prod.fst).Nodup) :
    ((eraseA k l).map Prod.fst).Nodup :=
  h.sublist (keys_eraseA_sublist k l)

/-- The waiter identities registered for a sessionId. -/
def widsAt (st : RunsState) (sid : String) : List Nat :=
  (lookupA sid st.waiters).getD []

/-- Well-formedness of the registry's waiter bookkeeping, true of the
initial state and preserved by every operation: waiter-map keys are
unique, timer identities are unique and below the fresh counter, each
registered waiter has exactly its pending timer and vice versa, and no
sessionId holds a waiter twice. -/
def RunsWF (st : RunsState) : Prop :=
  (st.waiters.map Prod.fst).Nodup
  ∧ (st.pendingTimers.map Prod.snd).Nodup
  ∧ (∀ p ∈ st.pendingTimers, p.2 < st.nextWid)
  ∧ (∀ sid w, w ∈ widsAt st sid → (sid, w) ∈ st.pendingTimers)
  ∧ (∀ p ∈ st.pendingTimers, p.2 ∈ widsAt st p.1)
  ∧ (∀ sid, (widsAt st sid).Nodup)

/-- A waiter identity that is finished: below the fresh counter and
registered nowhere — it can never be resolved again. -/
def widDead (st : RunsState) (w : Nat) : Prop :=
  w < st.nextWid
  ∧ (∀ p ∈ st.pendingTimers, p.2 ≠ w)
  ∧ (∀ sid, w ∉ widsAt st sid)

/-- Two different sessionIds never share a waiter identity. -/
theorem widsAt_disjoint (st : RunsState) (hwf : RunsWF st)
    (sid sid' : String) (w : Nat) (h : w ∈ widsAt st sid)
    (h' : w ∈ widsAt st sid') : sid = sid' := by
  have hp := hwf.2.2.2.1 sid w h
  have hp' := hwf.2.2.2.1 sid' w h'
  have heq := List.inj_on_of_nodup_map hwf.2.1 hp hp' rfl
  exact congrArg Prod.fst heq

/-- A registered waiter identity is below the fresh counter. -/
theorem widsAt_lt_nextWid (st : RunsState) (hwf : RunsWF st)
    (sid : String) (w : Nat) (h : w ∈ widsAt st sid) : w < st.nextWid :=
  hwf.2.2.1 _ (hwf.2.2.2.1 sid w h)

/-- Fast path of `waitForEmbeddedPiRunEnd`: falsy sessionId or no
registered run resolves `true` immediately and changes nothing. -/
theorem waitForEnd_immediate (st : RunsState) (sid : String) (t : Nat)
    (h : sid = "" ∨ lookupA sid st.activeRuns = none) :
    waitForEmbeddedPiRunEnd st sid t = (st, [.resolveImmediate true]) := by
  unfold waitForEmbeddedPiRunEnd
  rcases h with h | h
  · simp [h]
  · simp [h]

/-- Slow path of `waitForEmbeddedPiRunEnd`: with a run registered, exactly
one fresh waiter and its timeout timer are added and nothing resolves. -/
theorem waitForEnd_registers (st : RunsState) (sid : String) (t : Nat)
    (h : EmbeddedPiQueueHandle) (hsid : sid ≠ "")
    (hl : lookupA sid st.activeRuns = some h) :
    waitForEmbeddedPiRunEnd st sid t =
      ({ st with
          waiters := setA sid (widsAt st sid ++ [st.nextWid]) st.waiters,
          pendingTimers := st.pendingTimers ++ [(sid, st.nextWid)],
          nextWid := st.nextWid + 1 }, []) := by
  unfold waitForEmbeddedPiRunEnd
  simp [hsid, hl, widsAt]

/-- `RunsWF` is preserved by `waitForEmbeddedPiRunEnd`. -/
theorem RunsWF_wait (st : RunsState) (sid : String) (t : Nat)
    (hwf : RunsWF st) : RunsWF (waitForEmbeddedPiRunEnd st sid t).1 := by
  by_cases hc : sid = "" ∨ lookupA sid st.activeRuns = none
  · rw [waitForEnd_immediate st sid t hc]
    exact hwf
  · push_neg at hc
    obtain ⟨hsid, hl⟩ := hc
    obtain ⟨h, hl⟩ : ∃ h, lookupA sid st.activeRuns = some h := by
      cases hx : lookupA sid st.activeRuns with
      | none => exact absurd hx hl
      | some h => exact ⟨h, rfl⟩
    rw [waitForEnd_registers st sid t h hsid hl]
    obtain ⟨w1, w2, w3, w4, w5, w6⟩ := hwf
    refine ⟨?_, ?_, ?_, ?_, ?_, ?_⟩
    · exact keys_setA_nodup sid _ _ w1
    · simp only [List.map_append, List.map_cons, List.map_nil]
      rw [List.nodup_append]
      refine ⟨w2, by simp, ?_⟩
      intro x hx
      have hxlt : x < st.nextWid := by
        simp only [List.mem_map] at hx
        obtain ⟨p, hp, hpx⟩ := hx
        exact hpx ▸ w3 p hp
      simp
      omega
    · intro p hp
      rcases List.mem_append.mp hp with hp | hp
      · have := w3 p hp
        show p.2 < st.nextWid + 1
        omega
      · simp at hp
        subst hp
        show st.nextWid < st.nextWid + 1
        omega
    · intro sid' w hw
      by_cases hs : sid' = sid
      · subst hs
        have : widsAt { st with
            waiters := setA sid' (widsAt st sid' ++ [st.nextWid]) st.waiters,
            pendingTimers := st.pendingTimers ++ [(sid', st.nextWid)],
            nextWid := st.nextWid + 1 } sid' = widsAt st sid' ++ [st.nextWid] := by
          simp [widsAt, lookupA_setA_self]
        rw [this] at hw
        rcases List.mem_append.mp hw with hw | hw
        · exact List.mem_append.mpr (.inl (w4 sid' w hw))
        · simp at hw
          simp [hw]
      · have : widsAt { st with
            waiters := setA sid (widsAt st sid ++ [st.nextWid]) st.waiters,
            pendingTimers := st.pendingTimers ++ [(sid, st.nextWid)],
            nextWid := st.nextWid + 1 } sid' = widsAt st sid' := by
          simp [widsAt, lookupA_setA_ne sid sid' hs]
        rw [this] at hw
        exact List.mem_append.mpr (.inl (w4 sid' w hw))
    · intro p hp
      rcases List.mem_append.mp hp with hp | hp
      · have hold := w5 p hp
        by_cases hs : p.1 = sid
        · have : widsAt { st with
              waiters := setA sid (widsAt st sid ++ [st.nextWid]) st.waiters,
              pendingTimers := st.pendingTimers ++ [(sid, st.nextWid)],
              nextWid := st.nextWid + 1 } p.1 = widsAt st sid ++ [st.nextWid] := by
            rw [hs]
            simp [widsAt, lookupA_setA_self]
          rw [this]
          exact List.mem_append.mpr (.inl (hs ▸ hold))
        · have : widsAt { st with
              waiters := setA sid (widsAt st sid ++ [st.nextWid]) st.waiters,
              pendingTimers := st.pendingTimers ++ [(sid, st.nextWid)],
              nextWid := st.nextWid + 1 } p.1 = widsAt st p.1 := by
            simp [widsAt, lookupA_setA_ne sid p.1 hs]
          rw [this]
          exact hold
      · simp at hp
        subst hp
        simp [widsAt, lookupA_setA_self]
    · intro sid'
      by_cases hs : sid' = sid
      · subst hs
        have : widsAt { st with
            waiters := setA sid' (widsAt st sid' ++ [st.nextWid]) st.waiters,
            pendingTimers := st.pendingTimers ++ [(sid', st.nextWid)],
            nextWid := st.nextWid + 1 } sid' = widsAt st sid' ++ [st.nextWid] := by
          simp [widsAt, lookupA_setA_self]
        rw [this]
        rw [List.nodup_append]
        refine ⟨w6 sid', by simp, ?_⟩
        intro x hx
        have := widsAt_lt_nextWid st ⟨w1, w2, w3, w4, w5, w6⟩ sid' x hx
        simp
        omega
      · have : widsAt { st with
            waiters := setA sid (widsAt st sid ++ [st.nextWid]) st.waiters,
            pendingTimers := st.pendingTimers ++ [(sid, st.nextWid)],
            nextWid := st.nextWid + 1 } sid' = widsAt st sid' := by
          simp [widsAt, lookupA_setA_ne sid sid' hs]
        rw [this]
        exact w6 sid'

/-- `notifyEmbeddedRunEnded`, expressed through `widsAt`. -/
theorem notifyEmbeddedRunEnded_eq (st : RunsState) (sid : String) :
    notifyEmbeddedRunEnded st sid =
      if widsAt st sid = [] then (st, [])
      else
        ({ st with
            waiters := eraseA sid st.waiters,
            pendingTimers := st.pendingTimers.filter
              (fun p => !(widsAt st sid).contains p.2) },
         (widsAt st sid).map (fun w => .resolve w true)) := by
  unfold notifyEmbeddedRunEnded widsAt
  cases hw : lookupA sid st.waiters with
  | none => simp
  | some ws =>
    by_cases he : ws = []
    · subst he
      simp
    · have he' : ¬ ws.isEmpty = true := by simpa [List.isEmpty_iff] using he
      simp [he, he']

/-- `RunsWF` is preserved by waking the waiters of a sessionId. -/
theorem RunsWF_notify (st : RunsState) (sid : String) (hwf : RunsWF st) :
    RunsWF (notifyEmbeddedRunEnded st sid).1 := by
  rw [notifyEmbeddedRunEnded_eq]
  by_cases he : widsAt st sid = []
  · simp only [he, if_pos rfl]
    exact hwf
  · rw [if_neg he]
    obtain ⟨w1, w2, w3, w4, w5, w6⟩ := hwf
    refine ⟨?_, ?_, ?_, ?_, ?_, ?_⟩
    · exact keys_eraseA_nodup sid _ w1
    · exact w2.sublist ((List.filter_sublist _).map Prod.snd)
    · intro p hp
      exact w3 p (List.mem_of_mem_filter hp)
    · intro sid' w hw
      by_cases hs : sid' = sid
      · subst hs
        have : widsAt { st with
            waiters := eraseA sid' st.waiters,
            pendingTimers := st.pendingTimers.filter
              (fun p => !(widsAt st sid').contains p.2) } sid' = [] := by
          simp [widsAt, lookupA_eraseA_self sid' st.waiters w1]
        rw [this] at hw
        simp at hw
      · have : widsAt { st with
            waiters := eraseA sid st.waiters,
            pendingTimers := st.pendingTimers.filter
              (fun p => !(widsAt st sid).contains p.2) } sid' = widsAt st sid' := by
          simp [widsAt, lookupA_eraseA_ne sid sid' hs]
        rw [this] at hw
        have hmem := w4 sid' w hw
        apply List.mem_filter.mpr
        refine ⟨hmem, ?_⟩
        have hnin : w ∉ widsAt st sid := by
          intro hin
          exact hs (widsAt_disjoint st ⟨w1, w2, w3, w4, w5, w6⟩ sid' sid w hw hin)
        simpa using hnin
    · intro p hp
      have hp' := List.mem_filter.mp hp
      have hold := w5 p hp'.1
      have hnc : p.2 ∉ widsAt st sid := by
        have := hp'.2
        simpa using this
      by_cases hs : p.1 = sid
      · exact absurd (hs ▸ hold) hnc
      · have : widsAt { st with
            waiters := eraseA sid st.waiters,
            pendingTimers := st.pendingTimers.filter
              (fun q => !(widsAt st sid).contains q.2) } p.1 = widsAt st p.1 := by
          simp [widsAt, lookupA_eraseA_ne sid p.1 hs]
        rw [this]
        exact hold
    · intro sid'
      by_cases hs : sid' = sid
      · subst hs
        have : widsAt { st with
            waiters := eraseA sid' st.waiters,
            pendingTimers := st.pendingTimers.filter
              (fun p => !(widsAt st sid').contains p.2) } sid' = [] := by
          simp [widsAt, lookupA_eraseA_self sid' st.waiters w1]
        rw [this]
        simp
      · have : widsAt { st with
            waiters := eraseA sid st.waiters,
            pendingTimers := st.pendingTimers.filter
              (fun p => !(widsAt st sid).contains p.2) } sid' = widsAt st sid' := by
          simp [widsAt, lookupA_eraseA_ne sid sid' hs]
        rw [this]
        exact w6 sid'

/-- `RunsWF` is preserved by `clearActiveEmbeddedRun`. -/
theorem RunsWF_clear (st : RunsState) (sid : String)
    (h : EmbeddedPiQueueHandle) (hwf : RunsWF st) :
    RunsWF (clearActiveEmbeddedRun st sid h).1 := by
  unfold clearActiveEmbeddedRun
  cases hl : lookupA sid st.activeRuns with
  | none => exact hwf
  | some stored =>
    by_cases hh : stored.hid = h.hid
    · simp only [hh, if_pos rfl]
      exact RunsWF_notify _ sid hwf
    · simp only [hh, if_false]
      exact hwf

/-- `embeddedRunTimeoutFire` when the timer is found. -/
theorem embeddedRunTimeoutFire_found (st : RunsState) (sid : String) (w' : Nat)
    (hf : st.pendingTimers.find? (fun p => p.2 = w') = some (sid, w')) :
    embeddedRunTimeoutFire st w' =
      ({ st with
          pendingTimers := st.pendingTimers.filter (fun p => p.2 ≠ w'),
          waiters :=
            if ((widsAt st sid).erase w').isEmpty then eraseA sid st.waiters
            else setA sid ((widsAt st sid).erase w') st.waiters },
       [.resolve w' false]) := by
  unfold embeddedRunTimeoutFire
  rw [hf]
  rfl

/-- `RunsWF` is preserved by a timer firing. -/
theorem RunsWF_timeout (st : RunsState) (wid : Nat) (hwf : RunsWF st) :
    RunsWF (embeddedRunTimeoutFire st wid).1 := by
  cases hf : st.pendingTimers.find? (fun p => p.2 = wid) with
  | none =>
    unfold embeddedRunTimeoutFire
    rw [hf]
    exact hwf
  | some q =>
    rcases q with ⟨sid, w'⟩
    have hq2 : w' = wid := by simpa using List.find?_some hf
    subst hq2
    have hqmem : (sid, w') ∈ st.pendingTimers := List.mem_of_find?_eq_some hf
    rw [embeddedRunTimeoutFire_found st sid w' hf]
    obtain ⟨w1, w2, w3, w4, w5, w6⟩ := hwf
    have hws : w' ∈ widsAt st sid := w5 _ hqmem
    have hupd : ∀ sid', widsAt { st with
        pendingTimers := st.pendingTimers.filter (fun p => p.2 ≠ w'),
        waiters :=
          if ((widsAt st sid).erase w').isEmpty then eraseA sid st.waiters
          else setA sid ((widsAt st sid).erase w') st.waiters } sid' =
        if sid' = sid then (widsAt st sid).erase w' else widsAt st sid' := by
      intro sid'
      show (lookupA sid' (if ((widsAt st sid).erase w').isEmpty then
          eraseA sid st.waiters
          else setA sid ((widsAt st sid).erase w') st.waiters)).getD []
        = if sid' = sid then (widsAt st sid).erase w' else widsAt st sid'
      by_cases hemp : ((widsAt st sid).erase w').isEmpty = true
      · rw [if_pos hemp]
        by_cases hs : sid' = sid
        · subst hs
          rw [lookupA_eraseA_self sid' st.waiters w1, if_pos rfl]
          rw [List.isEmpty_iff] at hemp
          simp [hemp]
        · rw [lookupA_eraseA_ne sid sid' hs, if_neg hs]
          rfl
      · rw [if_neg hemp]
        by_cases hs : sid' = sid
        · subst hs
          rw [lookupA_setA_self, if_pos rfl]
          rfl
        · rw [lookupA_setA_ne sid sid' hs, if_neg hs]
          rfl
    refine ⟨?_, ?_, ?_, ?_, ?_, ?_⟩
    · show ((if ((widsAt st sid).erase w').isEmpty then eraseA sid st.waiters
        else setA sid ((widsAt st sid).erase w') st.waiters).map Prod.fst).Nodup
      split
      · exact keys_eraseA_nodup sid _ w1
      · exact keys_setA_nodup sid _ _ w1
    · exact w2.sublist ((List.filter_sublist _).map Prod.snd)
    · intro p hp
      exact w3 p (List.mem_of_mem_filter hp)
    · intro sid' w hw
      rw [hupd sid'] at hw
      apply List.mem_filter.mpr
      by_cases hs : sid' = sid
      · subst hs
        rw [if_pos rfl] at hw
        refine ⟨w4 sid' w (List.mem_of_mem_erase hw), ?_⟩
        simp
        exact ((List.Nodup.mem_erase_iff (w6 sid')).mp hw).1
      · rw [if_neg hs] at hw
        refine ⟨w4 sid' w hw, ?_⟩
        simp
        intro he
        subst he
        exact hs (widsAt_disjoint st ⟨w1, w2, w3, w4, w5, w6⟩ sid' sid w hw hws)
    · intro p hp
      have hp' := List.mem_filter.mp hp
      have hold := w5 p hp'.1
      have hne : p.2 ≠ w' := by simpa using hp'.2
      rw [hupd p.1]
      by_cases hs : p.1 = sid
      · rw [if_pos hs]
        exact (List.Nodup.mem_erase_iff (w6 sid)).mpr ⟨hne, hs ▸ hold⟩
      · rw [if_neg hs]
        exact hold
    · intro sid'
      rw [hupd sid']
      split
      · exact (w6 sid).erase _
      · exact w6 sid'

/-- `notifyEmbeddedRunEnded` wakes every waiter of the sessionId together:
the output list resolves each registered waiter `true`, and afterwards
every one of them is dead — unregistered, its timer cancelled. -/
theorem notify_wakes_all (st : RunsState) (sid : String) (hwf : RunsWF st) :
    (notifyEmbeddedRunEnded st sid).2
        = (widsAt st sid).map (fun w => RunsOut.resolve w true)
    ∧ ∀ w ∈ widsAt st sid, widDead (notifyEmbeddedRunEnded st sid).1 w := by
  rw [notifyEmbeddedRunEnded_eq]
  by_cases he : widsAt st sid = []
  · rw [if_pos he, he]
    refine ⟨rfl, ?_⟩
    intro w hw
    cases hw
  · rw [if_neg he]
    obtain ⟨w1, w2, w3, w4, w5, w6⟩ := hwf
    refine ⟨rfl, ?_⟩
    intro w hw
    refine ⟨widsAt_lt_nextWid st ⟨w1, w2, w3, w4, w5, w6⟩ sid w hw, ?_, ?_⟩
    · intro p hp hpe
      have hc := (List.mem_filter.mp hp).2
      rw [hpe] at hc
      simp at hc
      exact hc hw
    · intro sid'
      by_cases hs : sid' = sid
      · subst hs
        have hnil : widsAt { st with
            waiters := eraseA sid' st.waiters,
            pendingTimers := st.pendingTimers.filter
              (fun p => !(widsAt st sid').contains p.2) } sid' = [] := by
          simp [widsAt, lookupA_eraseA_self sid' st.waiters w1]
        rw [hnil]
        simp
      · have hsame : widsAt { st with
            waiters := eraseA sid st.waiters,
            pendingTimers := st.pendingTimers.filter
              (fun p => !(widsAt st sid).contains p.2) } sid' = widsAt st sid' := by
          simp [widsAt, lookupA_eraseA_ne sid sid' hs]
        rw [hsame]
        intro hin
        exact hs (widsAt_disjoint st ⟨w1, w2, w3, w4, w5, w6⟩ sid' sid w hin hw)

/-- A matching `clearActiveEmbeddedRun` wakes all concurrent waiters of the
sessionId together, each resolved `true`, and kills every one of them. -/
theorem clear_wakes_all (st : RunsState) (sid : String)
    (h stored : EmbeddedPiQueueHandle) (hwf : RunsWF st)
    (hl : lookupA sid st.activeRuns = some stored) (hh : stored.hid = h.hid) :
    (clearActiveEmbeddedRun st sid h).2
        = (widsAt st sid).map (fun w => RunsOut.resolve w true)
    ∧ ∀ w ∈ widsAt st sid, widDead (clearActiveEmbeddedRun st sid h).1 w := by
  unfold clearActiveEmbeddedRun
  simp only [hl]
  rw [if_pos hh]
  exact notify_wakes_all
    { st with activeRuns := eraseA sid st.activeRuns,
              sessionKeyToSessionId := removeFirstVal sid st.sessionKeyToSessionId }
    sid hwf

/-- `widsAt` after a timer has fired: the fired waiter is erased from its
session's set, other sessions are untouched. -/
theorem widsAt_after_timeout (st : RunsState) (sid : String) (w' : Nat)
    (w1 : (st.waiters.map Prod.fst).Nodup) (sid'' : String) :
    widsAt { st with
        pendingTimers := st.pendingTimers.filter (fun p => p.2 ≠ w'),
        waiters :=
          if ((widsAt st sid).erase w').isEmpty then eraseA sid st.waiters
          else setA sid ((widsAt st sid).erase w') st.waiters } sid'' =
      if sid'' = sid then (widsAt st sid).erase w' else widsAt st sid'' := by
  show (lookupA sid'' (if ((widsAt st sid).erase w').isEmpty then
      eraseA sid st.waiters
      else setA sid ((widsAt st sid).erase w') st.waiters)).getD []
    = if sid'' = sid then (widsAt st sid).erase w' else widsAt st sid''
  by_cases hemp : ((widsAt st sid).erase w').isEmpty = true
  · rw [if_pos hemp]
    by_cases hs : sid'' = sid
    · subst hs
      rw [lookupA_eraseA_self sid'' st.waiters w1, if_pos rfl]
      rw [List.isEmpty_iff] at hemp
      simp [hemp]
    · rw [lookupA_eraseA_ne sid sid'' hs, if_neg hs]
      rfl
  · rw [if_neg hemp]
    by_cases hs : sid'' = sid
    · subst hs
      rw [lookupA_setA_self, if_pos rfl]
      rfl
    · rw [lookupA_setA_ne sid sid'' hs, if_neg hs]
      rfl

/-- A pending timer that fires resolves exactly its waiter `false` and
discards it: afterwards the waiter is dead. -/
theorem timeout_resolves_false (st : RunsState) (sid : String) (w' : Nat)
    (hwf : RunsWF st)
    (hf : st.pendingTimers.find? (fun p => p.2 = w') = some (sid, w')) :
    (embeddedRunTimeoutFire st w').2 = [RunsOut.resolve w' false]
    ∧ widDead (embeddedRunTimeoutFire st w').1 w' := by
  rw [embeddedRunTimeoutFire_found st sid w' hf]
  obtain ⟨w1, w2, w3, w4, w5, w6⟩ := hwf
  have hqmem : (sid, w') ∈ st.pendingTimers := List.mem_of_find?_eq_some hf
  refine ⟨rfl, w3 _ hqmem, ?_, ?_⟩
  · intro p hp hpe
    have hc := (List.mem_filter.mp hp).2
    rw [hpe] at hc
    simp at hc
  · intro sid'
    rw [widsAt_after_timeout st sid w' w1 sid']
    by_cases hs : sid' = sid
    · rw [if_pos hs]
      intro hin
      exact ((List.Nodup.mem_erase_iff (w6 sid)).mp hin).1 rfl
    · rw [if_neg hs]
      intro hin
      have hmem' := w4 sid' w' hin
      have heq := List.inj_on_of_nodup_map w2 hmem' hqmem rfl
      exact hs (congrArg Prod.fst heq)

/-- The initial registry is well-formed. -/
theorem RunsWF_init : RunsWF runsInit := by
  refine ⟨?_, ?_, ?_, ?_, ?_, ?_⟩
  · simp [runsInit]
  · simp [runsInit]
  · intro p hp
    simp [runsInit] at hp
  · intro sid w hw
    simp [widsAt, runsInit, lookupA] at hw
  · intro p hp
    simp [runsInit] at hp
  · intro sid
    simp [widsAt, runsInit, lookupA]

/-- `RunsWF` is preserved by every registry operation. -/
theorem runsStep_WF (st : RunsState) (l : RunsLabel) (hwf : RunsWF st) :
    RunsWF (runsStep st l).1 := by
  cases l with
  | register sid h k => exact hwf
  | clear sid h => exact RunsWF_clear st sid h hwf
  | queue sid t =>
    show RunsWF (queueEmbeddedPiMessage st sid t).2.1
    unfold queueEmbeddedPiMessage
    cases lookupA sid st.activeRuns with
    | none => exact hwf
    | some handle =>
      dsimp only
      split_ifs <;> exact hwf
  | abortRun sid => exact hwf
  | wait sid t => exact RunsWF_wait st sid t hwf
  | timeoutFire w => exact RunsWF_timeout st w hwf

/-- `true` when the output resolves the given waiter identity. -/
def isResolveOf (w : Nat) : RunsOut → Bool
  | .resolve w' _ => w' == w
  | _ => false

/-- Number of resolutions of one waiter identity in an output list. -/
def resolveCount (outs : List RunsOut) (w : Nat) : Nat :=
  outs.countP (isResolveOf w)

/-- `notifyEmbeddedRunEnded` never resolves a dead waiter, and keeps it
dead. -/
theorem notify_dead (st : RunsState) (sid : String) (w : Nat)
    (hwf : RunsWF st) (hd : widDead st w) :
    widDead (notifyEmbeddedRunEnded st sid).1 w
    ∧ resolveCount (notifyEmbeddedRunEnded st sid).2 w = 0 := by
  rw [notifyEmbeddedRunEnded_eq]
  by_cases he : widsAt st sid = []
  · rw [if_pos he]
    exact ⟨hd, rfl⟩
  · rw [if_neg he]
    constructor
    · refine ⟨hd.1, ?_, ?_⟩
      · intro p hp
        exact hd.2.1 p (List.mem_of_mem_filter hp)
      · intro sid'
        by_cases hs : sid' = sid
        · subst hs
          have hnil : widsAt { st with
              waiters := eraseA sid' st.waiters,
              pendingTimers := st.pendingTimers.filter
                (fun p => !(widsAt st sid').contains p.2) } sid' = [] := by
            simp [widsAt, lookupA_eraseA_self sid' st.waiters hwf.1]
          rw [hnil]
          simp
        · have hsame : widsAt { st with
              waiters := eraseA sid st.waiters,
              pendingTimers := st.pendingTimers.filter
                (fun p => !(widsAt st sid).contains p.2) } sid' = widsAt st sid' := by
            simp [widsAt, lookupA_eraseA_ne sid sid' hs]
          rw [hsame]
          exact hd.2.2 sid'
    · apply List.countP_eq_zero.mpr
      intro o ho
      obtain ⟨x, hx, hxo⟩ := List.mem_map.mp ho
      subst hxo
      intro hxw
      have hxeq : x = w := by simpa [isResolveOf] using hxw
      exact hd.2.2 sid (hxeq ▸ hx)

/-- A dead waiter stays dead across every registry operation and is never
resolved by it. -/
theorem runsStep_dead (st : RunsState) (l : RunsLabel) (w : Nat)
    (hwf : RunsWF st) (hd : widDead st w) :
    widDead (runsStep st l).1 w ∧ resolveCount (runsStep st l).2 w = 0 := by
  cases l with
  | register sid h k => exact ⟨hd, rfl⟩
  | queue sid t =>
    show widDead (queueEmbeddedPiMessage st sid t).2.1 w
      ∧ resolveCount (queueEmbeddedPiMessage st sid t).2.2 w = 0
    unfold queueEmbeddedPiMessage
    cases lookupA sid st.activeRuns with
    | none => exact ⟨hd, rfl⟩
    | some handle =>
      dsimp only
      split_ifs <;> exact ⟨hd, rfl⟩
  | abortRun sid =>
    show widDead st w ∧ resolveCount (abortEmbeddedPiRun st sid).2 w = 0
    unfold abortEmbeddedPiRun
    cases lookupA sid st.activeRuns with
    | none => exact ⟨hd, rfl⟩
    | some handle => exact ⟨hd, rfl⟩
  | clear sid h =>
    show widDead (clearActiveEmbeddedRun st sid h).1 w
      ∧ resolveCount (clearActiveEmbeddedRun st sid h).2 w = 0
    unfold clearActiveEmbeddedRun
    cases hl : lookupA sid st.activeRuns with
    | none => exact ⟨hd, rfl⟩
    | some stored =>
      dsimp only
      by_cases hh : stored.hid = h.hid
      · rw [if_pos hh]
        exact notify_dead
          { st with activeRuns := eraseA sid st.activeRuns,
                    sessionKeyToSessionId := removeFirstVal sid st.sessionKeyToSessionId }
          sid w hwf hd
      · rw [if_neg hh]
        exact ⟨hd, rfl⟩
  | wait sid t =>
    show widDead (waitForEmbeddedPiRunEnd st sid t).1 w
      ∧ resolveCount (waitForEmbeddedPiRunEnd st sid t).2 w = 0
    by_cases hc : sid = "" ∨ lookupA sid st.activeRuns = none
    · rw [waitForEnd_immediate st sid t hc]
      exact ⟨hd, rfl⟩
    · push_neg at hc
      obtain ⟨hsid, hl0⟩ := hc
      obtain ⟨h, hl⟩ : ∃ h, lookupA sid st.activeRuns = some h := by
        cases hx : lookupA sid st.activeRuns with
        | none => exact absurd hx hl0
        | some h => exact ⟨h, rfl⟩
      rw [waitForEnd_registers st sid t h hsid hl]
      refine ⟨⟨?_, ?_, ?_⟩, rfl⟩
      · show w < st.nextWid + 1
        have := hd.1
        omega
      · intro p hp
        rcases List.mem_append.mp hp with hp | hp
        · exact hd.2.1 p hp
        · simp at hp
          subst hp
          show st.nextWid ≠ w
          have := hd.1
          omega
      · intro sid'
        by_cases hs : sid' = sid
        · subst hs
          have heq : widsAt { st with
              waiters := setA sid' (widsAt st sid' ++ [st.nextWid]) st.waiters,
              pendingTimers := st.pendingTimers ++ [(sid', st.nextWid)],
              nextWid := st.nextWid + 1 } sid' = widsAt st sid' ++ [st.nextWid] := by
            simp [widsAt, lookupA_setA_self]
          rw [heq]
          intro hin
          rcases List.mem_append.mp hin with hin | hin
          · exact hd.2.2 sid' hin
          · simp at hin
            have := hd.1
            omega
        · have heq : widsAt { st with
              waiters := setA sid (widsAt st sid ++ [st.nextWid]) st.waiters,
              pendingTimers := st.pendingTimers ++ [(sid, st.nextWid)],
              nextWid := st.nextWid + 1 } sid' = widsAt st sid' := by
            simp [widsAt, lookupA_setA_ne sid sid' hs]
          rw [heq]
          exact hd.2.2 sid'
  | timeoutFire wid =>
    show widDead (embeddedRunTimeoutFire st wid).1 w
      ∧ resolveCount (embeddedRunTimeoutFire st wid).2 w = 0
    cases hf : st.pendingTimers.find? (fun p => p.2 = wid) with
    | none =>
      unfold embeddedRunTimeoutFire
      rw [hf]
      exact ⟨hd, rfl⟩
    | some q =>
      rcases q with ⟨sid, w'⟩
      have hq2 : w' = wid := by simpa using List.find?_some hf
      subst hq2
      have hqmem : (sid, w') ∈ st.pendingTimers := List.mem_of_find?_eq_some hf
      have hne : w' ≠ w := hd.2.1 _ hqmem
      rw [embeddedRunTimeoutFire_found st sid w' hf]
      refine ⟨⟨hd.1, ?_, ?_⟩, ?_⟩
      · intro p hp
        exact hd.2.1 p (List.mem_of_mem_filter hp)
      · intro sid'
        rw [widsAt_after_timeout st sid w' hwf.1 sid']
        by_cases hs : sid' = sid
        · rw [if_pos hs]
          intro hin
          exact hd.2.2 sid (List.mem_of_mem_erase hin)
        · rw [if_neg hs]
          exact hd.2.2 sid'
      · have hne' : isResolveOf w (RunsOut.resolve w' false) = false := by
          simp [isResolveOf, hne]
        simp [resolveCount, List.countP_cons, hne']

/-- Each single registry operation resolves a given waiter identity at
most once, and if it does resolve it the waiter is dead afterwards. -/
theorem runsStep_resolve_once (st : RunsState) (l : RunsLabel) (w : Nat)
    (hwf : RunsWF st) :
    resolveCount (runsStep st l).2 w ≤ 1
    ∧ (resolveCount (runsStep st l).2 w = 1 → widDead (runsStep st l).1 w) := by
  cases l with
  | register sid h k =>
    exact ⟨Nat.zero_le 1, fun h1 => by simp [resolveCount, runsStep] at h1⟩
  | queue sid t =>
    show resolveCount (queueEmbeddedPiMessage st sid t).2.2 w ≤ 1
      ∧ (resolveCount (queueEmbeddedPiMessage st sid t).2.2 w = 1 →
          widDead (queueEmbeddedPiMessage st sid t).2.1 w)
    unfold queueEmbeddedPiMessage
    cases lookupA sid st.activeRuns with
    | none => exact ⟨Nat.zero_le 1, fun h1 => by simp [resolveCount, isResolveOf] at h1⟩
    | some handle =>
      dsimp only
      split_ifs <;> exact ⟨Nat.zero_le 1, fun h1 => by simp [resolveCount, isResolveOf] at h1⟩
  | abortRun sid =>
    show resolveCount (abortEmbeddedPiRun st sid).2 w ≤ 1
      ∧ (resolveCount (abortEmbeddedPiRun st sid).2 w = 1 → widDead st w)
    unfold abortEmbeddedPiRun
    cases lookupA sid st.activeRuns with
    | none => exact ⟨Nat.zero_le 1, fun h1 => by simp [resolveCount, isResolveOf] at h1⟩
    | some handle => exact ⟨Nat.zero_le 1, fun h1 => by simp [resolveCount, isResolveOf] at h1⟩
  | clear sid h =>
    show resolveCount (clearActiveEmbeddedRun st sid h).2 w ≤ 1
      ∧ (resolveCount (clearActiveEmbeddedRun st sid h).2 w = 1 →
          widDead (clearActiveEmbeddedRun st sid h).1 w)
    cases hl : lookupA sid st.activeRuns with
    | none =>
      unfold clearActiveEmbeddedRun
      rw [hl]
      exact ⟨Nat.zero_le 1, fun h1 => by simp [resolveCount, isResolveOf] at h1⟩
    | some stored =>
      by_cases hh : stored.hid = h.hid
      · have hca := clear_wakes_all st sid h stored hwf hl hh
        rw [hca.1]
        have hcnt : resolveCount
            ((widsAt st sid).map (fun x => RunsOut.resolve x true)) w
            = (widsAt st sid).count w := by
          simp only [resolveCount, List.countP_map]
          rfl
        rw [hcnt]
        constructor
        · exact List.nodup_iff_count_le_one.mp (hwf.2.2.2.2.2 sid) w
        · intro h1
          have hmem : w ∈ widsAt st sid := List.count_pos_iff.mp (by omega)
          exact hca.2 w hmem
      · unfold clearActiveEmbeddedRun
        simp only [hl]
        rw [if_neg hh]
        exact ⟨Nat.zero_le 1, fun h1 => by simp [resolveCount, isResolveOf] at h1⟩
  | wait sid t =>
    show resolveCount (waitForEmbeddedPiRunEnd st sid t).2 w ≤ 1
      ∧ (resolveCount (waitForEmbeddedPiRunEnd st sid t).2 w = 1 →
          widDead (waitForEmbeddedPiRunEnd st sid t).1 w)
    by_cases hc : sid = "" ∨ lookupA sid st.activeRuns = none
    · rw [waitForEnd_immediate st sid t hc]
      exact ⟨Nat.zero_le 1, fun h1 => by simp [resolveCount, isResolveOf] at h1⟩
    · push_neg at hc
      obtain ⟨hsid, hl0⟩ := hc
      obtain ⟨h, hl⟩ : ∃ h, lookupA sid st.activeRuns = some h := by
        cases hx : lookupA sid st.activeRuns with
        | none => exact absurd hx hl0
        | some h => exact ⟨h, rfl⟩
      rw [waitForEnd_registers st sid t h hsid hl]
      exact ⟨Nat.zero_le 1, fun h1 => by simp [resolveCount, isResolveOf] at h1⟩
  | timeoutFire wid =>
    show resolveCount (embeddedRunTimeoutFire st wid).2 w ≤ 1
      ∧ (resolveCount (embeddedRunTimeoutFire st wid).2 w = 1 →
          widDead (embeddedRunTimeoutFire st wid).1 w)
    cases hf : st.pendingTimers.find? (fun p => p.2 = wid) with
    | none =>
      unfold embeddedRunTimeoutFire
      rw [hf]
      exact ⟨Nat.zero_le 1, fun h1 => by simp [resolveCount, isResolveOf] at h1⟩
    | some q =>
      rcases q with ⟨sid, w'⟩
      have hq2 : w' = wid := by simpa using List.find?_some hf
      subst hq2
      have htr := timeout_resolves_false st sid w' hwf hf
      rw [htr.1]
      by_cases hw : w' = w
      · subst hw
        refine ⟨?_, fun _ => htr.2⟩
        simp [resolveCount, isResolveOf]
      · have h0 : resolveCount [RunsOut.resolve w' false] w = 0 := by
          simp [resolveCount, isResolveOf, hw]
        rw [h0]
        exact ⟨Nat.zero_le 1, fun h1 => by simp [resolveCount, isResolveOf] at h1⟩

/-- A dead waiter is never resolved along any subsequent trace. -/
theorem runsRun_dead (w : Nat) :
    ∀ (tr : List RunsLabel) (st : RunsState), RunsWF st → widDead st w →
      resolveCount (runsRun st tr).2 w = 0
  | [], _, _, _ => rfl
  | l :: ls, st, hwf, hd => by
    have hstep := runsStep_dead st l w hwf hd
    have hwf1 := runsStep_WF st l hwf
    have hrest := runsRun_dead w ls (runsStep st l).1 hwf1 hstep.1
    have hsplit : resolveCount (runsRun st (l :: ls)).2 w
        = resolveCount (runsStep st l).2 w
          + resolveCount (runsRun (runsStep st l).1 ls).2 w := by
      show resolveCount ((runsStep st l).2 ++ (runsRun (runsStep st l).1 ls).2) w = _
      simp [resolveCount, List.countP_append]
    rw [hsplit, hstep.2, hrest]

/-- Along any trace from a well-formed registry state, each waiter
identity is resolved at most once. -/
theorem runsRun_at_most_once (w : Nat) :
    ∀ (tr : List RunsLabel) (st : RunsState), RunsWF st →
      resolveCount (runsRun st tr).2 w ≤ 1
  | [], _, _ => Nat.zero_le 1
  | l :: ls, st, hwf => by
    have hstep := runsStep_resolve_once st l w hwf
    have hwf1 := runsStep_WF st l hwf
    have hsplit : resolveCount (runsRun st (l :: ls)).2 w
        = resolveCount (runsStep st l).2 w
          + resolveCount (runsRun (runsStep st l).1 ls).2 w := by
      show resolveCount ((runsStep st l).2 ++ (runsRun (runsStep st l).1 ls).2) w = _
      simp [resolveCount, List.countP_append]
    rw [hsplit]
    by_cases h1 : resolveCount (runsStep st l).2 w = 1
    · have hdead := hstep.2 h1
      have hrest := runsRun_dead w ls (runsStep st l).1 hwf1 hdead
      omega
    · have h0 : resolveCount (runsStep st l).2 w = 0 := by
        have := hstep.1
        omega
      have hrest := runsRun_at_most_once w ls (runsStep st l).1 hwf1
      omega

/-- C2 counterexample: with a run registered under the empty sessionId,
`waitForEmbeddedPiRunEnd` still resolves `true` immediately and registers
no waiter — the claim's "resolves true immediately when no run is
registered for sessionId; otherwise each call registers one waiter" is
violated, because the falsy-sessionId guard fires before the registry
lookup. -/
theorem waitForEnd_empty_sid_cex :
    lookupA ""
        (setActiveEmbeddedRun runsInit "" ⟨0, true, false⟩ none).activeRuns
      = some ⟨0, true, false⟩
    ∧ waitForEmbeddedPiRunEnd
        (setActiveEmbeddedRun runsInit "" ⟨0, true, false⟩ none) "" 15000
      = (setActiveEmbeddedRun runsInit "" ⟨0, true, false⟩ none,
         [RunsOut.resolveImmediate true]) := by
  constructor
  · rfl
  · rfl

/-- C2 (amended): `waitForEmbeddedPiRunEnd` resolves `true` immediately
and changes nothing when the sessionId is empty (falsy) or no run is
registered for it; otherwise it registers exactly one fresh waiter
together with its timeout timer and resolves nothing.  A
`clearActiveEmbeddedRun` with the identical registered handle wakes all
concurrent waiters of the sessionId together, each resolved `true`, and
afterwards every one of them is dead (unregistered, its timer cancelled,
never resolvable again); a clear with a different handle wakes nobody.  A
pending timeout that fires resolves exactly its waiter `false` and
discards it.  Along any label trace from a well-formed registry state —
in particular from the initial empty registry — each waiter identity is
resolved at most once. -/
theorem waitForEnd_spec :
    (∀ (st : RunsState) (sid : String) (t : Nat),
        sid = "" ∨ lookupA sid st.activeRuns = none →
        waitForEmbeddedPiRunEnd st sid t = (st, [.resolveImmediate true]))
    ∧ (∀ (st : RunsState) (sid : String) (t : Nat)
          (h : EmbeddedPiQueueHandle), sid ≠ "" →
        lookupA sid st.activeRuns = some h →
        waitForEmbeddedPiRunEnd st sid t =
          ({ st with
              waiters := setA sid (widsAt st sid ++ [st.nextWid]) st.waiters,
              pendingTimers := st.pendingTimers ++ [(sid, st.nextWid)],
              nextWid := st.nextWid + 1 }, []))
    ∧ (∀ (st : RunsState) (sid : String) (h stored : EmbeddedPiQueueHandle),
        RunsWF st → lookupA sid st.activeRuns = some stored →
        stored.hid = h.hid →
        (clearActiveEmbeddedRun st sid h).2
            = (widsAt st sid).map (fun w => RunsOut.resolve w true)
        ∧ ∀ w ∈ widsAt st sid, widDead (clearActiveEmbeddedRun st sid h).1 w)
    ∧ (∀ (st : RunsState) (sid : String) (h stored : EmbeddedPiQueueHandle),
        lookupA sid st.activeRuns = some stored → stored.hid ≠ h.hid →
        clearActiveEmbeddedRun st sid h = (st, []))
    ∧ (∀ (st : RunsState) (sid : String) (w : Nat), RunsWF st →
        st.pendingTimers.find? (fun p => p.2 = w) = some (sid, w) →
        (embeddedRunTimeoutFire st w).2 = [RunsOut.resolve w false]
        ∧ widDead (embeddedRunTimeoutFire st w).1 w)
    ∧ (∀ (st : RunsState) (tr : List RunsLabel) (w : Nat), RunsWF st →
        resolveCount (runsRun st tr).2 w ≤ 1)
    ∧ RunsWF runsInit := by
  refine ⟨waitForEnd_immediate, ?_, ?_, ?_, ?_, ?_, RunsWF_init⟩
  · intro st sid t h hsid hl
    exact waitForEnd_registers st sid t h hsid hl
  · intro st sid h stored hwf hl hh
    exact clear_wakes_all st sid h stored hwf hl hh
  · intro st sid h stored hl hh
    unfold clearActiveEmbeddedRun
    simp only [hl]
    rw [if_neg hh]
  · intro st sid w hwf hf
    exact timeout_resolves_false st sid w hwf hf
  · intro st tr w hwf
    exact runsRun_at_most_once w tr st hwf

end OpenClaw
